import Mathlib

/-!
Shallow embedding of `src/dual_model.py` (battery-literature dual-model
extraction pipeline) and proofs about the frozen claims C1-C10.

Modelling conventions:
* Python strings are `List Char` (`Str` below); string literals are converted
  with `chars`.
* Python floats are modelled as `ℚ`; `float()` applied to a captured numeral
  (always of the shape `\d+\.?\d*` here) is `pyFloat`/`parseFloatQ`, and
  `str(float)` is `reprQ` (exact decimal when the denominator divides a power
  of ten, a `num/den` rendering otherwise; Python would print a decimal or
  scientific form — for every property proved here only the character
  alphabet of the rendering matters, and both renderings use digits, `.`,
  `-` and no letters).
* Each regular expression of the source is hand-compiled to a matcher
  `Str → Option (..)` that mirrors the pattern element by element (the
  original pattern is quoted in the doc comment); `re.search`/`re.finditer`
  are the scanners `searchPat`/`finditerRun`, which try the matcher at every
  position from the left exactly as the backtracking engine does.
* JSON objects are association lists `Rec` over `JVal` values, with Python
  `dict` get/set/del and truthiness modelled by `getV`/`setV`/`delV` and
  `JVal.truthy`.
* Fallible code returns `Except`: `extract_crates` can raise
  `ZeroDivisionError` (`1.0 / float("0")` on input such as `"C/0"`), so it
  and the callers threading it return `Except Unit`.
-/

namespace DualModel

/-- Python strings as lists of characters. -/
abbrev Str := List Char

/-- Convert a Lean string literal to the embedding's string type. -/
def chars (s : String) : Str := s.toList

/-- Model of the regex class `\w` (the patterns only use ASCII letters,
digits and underscore; the texts we reason about are ASCII as well). -/
def isWordChar (c : Char) : Bool := c.isAlphanum || c = '_'

/-- Model of the regex class `\s` / Python `str.strip` whitespace. -/
def isWS (c : Char) : Bool := c.isWhitespace

/-- Lower-case a character (`re.IGNORECASE` / `str.lower`, ASCII). -/
def lowC (c : Char) : Char := c.toLower

/-- `s.lower()`. -/
def lowerStr (s : Str) : Str := s.map lowC

/-- Drop trailing whitespace (helper for `pyStrip`). -/
def rstrip (s : Str) : Str := ((s.reverse).dropWhile isWS).reverse

/-- Python `str.strip()`. -/
def pyStrip (s : Str) : Str := (s.dropWhile isWS) |> rstrip

/-- Does `pre` occur as a prefix of `s`? (case-sensitive, used by `in`). -/
def hasPrefixStr : Str → Str → Bool
  | [], _ => true
  | _ :: _, [] => false
  | p :: ps, c :: cs => p = c && hasPrefixStr ps cs

/-- Python `pat in s` substring containment (case-sensitive). -/
def containsSub (pat : Str) : Str → Bool
  | [] => hasPrefixStr pat []
  | c :: cs => hasPrefixStr pat (c :: cs) || containsSub pat cs

/-- Python `c in s` for a single character. -/
def containsChar (c : Char) (s : Str) : Bool := s.contains c

/-- Decimal digits of a natural number (the standard base-10 rendering). -/
def natDigitsGo : ℕ → ℕ → Str → Str
  | 0, _, acc => acc
  | fuel + 1, n, acc =>
    if n = 0 then acc else natDigitsGo fuel (n / 10) (Char.ofNat (48 + n % 10) :: acc)

/-- Decimal rendering of a natural number. -/
def natDigits (n : ℕ) : Str := if n = 0 then ['0'] else natDigitsGo (n + 1) n []

/-- Numeric value of a digit list (most significant first). -/
def natOfDigits (s : Str) : ℕ := s.foldl (fun a c => 10 * a + (c.toNat - 48)) 0

/-- Model of Python `float()` restricted to the numeral shapes produced by the
capture group `(\d+\.?\d*)` (nonempty digits, optional dot, digits); other
inputs give `none` (which models the `ValueError` caught in
`_normalize_crate`). -/
def parseFloatQ (s : Str) : Option ℚ :=
  let d1 := s.takeWhile Char.isDigit
  let r1 := s.dropWhile Char.isDigit
  if d1.isEmpty then none
  else
    match r1 with
    | [] => some (natOfDigits d1)
    | '.' :: d2 =>
      if d2.all Char.isDigit then
        some ((natOfDigits d1 : ℚ) + (natOfDigits d2 : ℚ) / (10 ^ d2.length : ℚ))
      else none
    | _ => none

/-- `float()` on a string known to be a capture of `(\d+\.?\d*)` (total;
falls back to 0 on inputs that can never occur at the embedded call sites). -/
def pyFloat (s : Str) : ℚ := (parseFloatQ s).getD 0

/-- Zero-pad a digit string on the left to length `k`. -/
def padZeros (s : Str) (k : ℕ) : Str := List.replicate (k - s.length) '0' ++ s

/-- Model of Python `str()` applied to a float value, used when
`standardize_json_data` re-stringifies field values.  Integral values render
as `d.0` (as Python does); other values with a power-of-ten denominator
render as exact decimals; remaining rationals (which a float cannot be) fall
back to `num/den`.  Every rendering uses only digits, `.`, `-` and `/`. -/
def reprQ (q : ℚ) : Str :=
  let sign : Str := if q < 0 then ['-'] else []
  let a : ℚ := |q|
  if a.den = 1 then sign ++ natDigits a.num.toNat ++ ['.', '0']
  else
    match (List.range 18).find? (fun k => (a * 10 ^ k).den = 1) with
    | some k =>
      let m := (a * 10 ^ k).num.toNat
      sign ++ natDigits (m / 10 ^ k) ++ '.' :: padZeros (natDigits (m % 10 ^ k)) k
    | none => sign ++ natDigits a.num.toNat ++ '/' :: natDigits a.den

/-- A JSON value as far as the pipeline inspects it: strings, numbers
(Python `int` and `float` both normalize to `ℚ` here — the code only ever
distinguishes strings from non-strings), `null` and booleans. -/
inductive JVal : Type where
  | str (s : Str)
  | num (q : ℚ)
  | jnull
  | jbool (b : Bool)
deriving DecidableEq

/-- Python truthiness of a value (`if item[k]:`). -/
def JVal.truthy : JVal → Bool
  | .str s => !s.isEmpty
  | .num q => q ≠ 0
  | .jnull => false
  | .jbool b => b

/-- Python `str()` of a value. -/
def pyStr : JVal → Str
  | .str s => s
  | .num q => reprQ q
  | .jnull => chars "None"
  | .jbool b => chars (if b then "True" else "False")

/-- A JSON object (Python dict) as an association list. -/
abbrev Rec := List (Str × JVal)

/-- Dict lookup `item[k]` / `k in item` (first binding wins). -/
def getV : Rec → Str → Option JVal
  | [], _ => none
  | (k', v) :: t, k => if k' = k then some v else getV t k

/-- Dict assignment `item[k] = v` (replace in place, else append). -/
def setV : Rec → Str → JVal → Rec
  | [], k, v => [(k, v)]
  | (k', v') :: t, k, v => if k' = k then (k, v) :: t else (k', v') :: setV t k v

/-- Dict deletion `del item[k]`. -/
def delV : Rec → Str → Rec
  | [], _ => []
  | (k', v) :: t, k => if k' = k then delV t k else (k', v) :: delV t k

/-- `k in item`. -/
def hasKeyR (r : Rec) (k : Str) : Bool := (getV r k).isSome

/-! ### Generic pattern scanners

A hand-compiled matcher tries its pattern at one fixed position and returns
its payload (usually the matched text and the remaining suffix, sometimes
capture groups).  `searchGo`/`searchPat` model `re.search`: try the matcher
at every position from the left, first success wins.  `runPattern` models a
`re.finditer` loop whose body may `return` (payload `some`) or fall through
to the next, non-overlapping match. -/

/-- Scan with a context-aware matcher (the previous character is needed only
by the look-behind in the `RT` temperature pattern). -/
def searchGo (m : Option Char → Str → Option α) : Option Char → Str → Option α
  | prev, [] => m prev []
  | prev, c :: cs =>
    match m prev (c :: cs) with
    | some a => some a
    | none => searchGo m (some c) cs

/-- `re.search` for a context-free matcher. -/
def searchPat (m : Str → Option α) (s : Str) : Option α :=
  searchGo (fun _ t => m t) none s

/-- `re.search` returning also the position of the match (used for
`match.start()` in `extract_abstract`). -/
def searchIdxGo (m : Str → Option α) : ℕ → Str → Option (ℕ × α)
  | i, [] => (m []).map fun a => (i, a)
  | i, c :: cs =>
    match m (c :: cs) with
    | some a => some (i, a)
    | none => searchIdxGo m (i + 1) cs

/-- `re.search` with match position. -/
def searchIdx (m : Str → Option α) (s : Str) : Option (ℕ × α) := searchIdxGo m 0 s

/-- One `for match in re.finditer(pattern, s): body(match)` loop: apply the
body to each non-overlapping match from the left, returning the body's first
`some`; on a `none` body continue scanning after the match. -/
def runPattern (m : Option Char → Str → Option (Str × Str)) (f : Str → Option β) :
    ℕ → Option Char → Str → Option β
  | 0, _, _ => none
  | fuel + 1, prev, s =>
    match m prev s with
    | some (txt, rest) =>
      match f txt with
      | some b => some b
      | none =>
        match txt with
        | [] =>
          match s with
          | [] => none
          | c :: cs => runPattern m f fuel (some c) cs
        | _ :: _ => runPattern m f fuel (txt.getLast?.orElse fun _ => prev) rest
    | none =>
      match s with
      | [] => none
      | c :: cs => runPattern m f fuel (some c) cs

/-- `re.finditer` loop driver (context-free matcher). -/
def finditerRun (m : Str → Option (Str × Str)) (f : Str → Option β) (s : Str) :
    Option β :=
  runPattern (fun _ t => m t) f (s.length + 1) none s

/-- `re.finditer` loop driver for a context-aware matcher. -/
def finditerRunCtx (m : Option Char → Str → Option (Str × Str)) (f : Str → Option β)
    (s : Str) : Option β :=
  runPattern m f (s.length + 1) none s

/-! ### Shared matcher building blocks -/

/-- Case-insensitive literal (the pattern is given lower-case); returns the
consumed original characters and the rest. -/
def litCI : Str → Str → Option (Str × Str)
  | [], s => some ([], s)
  | _ :: _, [] => none
  | p :: ps, c :: cs =>
    if lowC c = p then (litCI ps cs).map fun tr => (c :: tr.1, tr.2) else none

/-- Case-sensitive literal. -/
def litCS : Str → Str → Option (Str × Str)
  | [], s => some ([], s)
  | _ :: _, [] => none
  | p :: ps, c :: cs =>
    if c = p then (litCS ps cs).map fun tr => (c :: tr.1, tr.2) else none

/-- Greedy character-class star, e.g. `\s*` (returns consumed, rest). -/
def spanP (p : Char → Bool) (s : Str) : Str × Str := (s.takeWhile p, s.dropWhile p)

/-- `\s+` (at least one whitespace character). -/
def ws1 (s : Str) : Option (Str × Str) :=
  let (sp, r) := spanP isWS s
  if sp.isEmpty then none else some (sp, r)

/-- The numeral capture `\d+\.?\d*` (greedy; nothing after it in any pattern
can consume a digit or the dot, so the greedy parse is the regex parse). -/
def lexNum (s : Str) : Option (Str × Str) :=
  let d1 := s.takeWhile Char.isDigit
  let r1 := s.dropWhile Char.isDigit
  if d1.isEmpty then none
  else
    match r1 with
    | '.' :: r2 =>
      let d2 := r2.takeWhile Char.isDigit
      some (d1 ++ '.' :: d2, r2.dropWhile Char.isDigit)
    | _ => some (d1, r1)

/-- `\d+\.?\d*(?!\w)` with the backtracking the look-ahead forces: the
candidates are (greedy first) `d1.d2`, `d1.` and `d1`; after any digit the
look-ahead fails (digits are word characters), so the only viable shorter
candidate is `d1` with the dot left unconsumed, which always satisfies the
look-ahead. -/
def lexNumNW (s : Str) : Option (Str × Str) :=
  let d1 := s.takeWhile Char.isDigit
  let r1 := s.dropWhile Char.isDigit
  if d1.isEmpty then none
  else
    match r1 with
    | '.' :: r2 =>
      let d2 := r2.takeWhile Char.isDigit
      let r3 := r2.dropWhile Char.isDigit
      match r3 with
      | [] => some (d1 ++ '.' :: d2, [])
      | c :: _ =>
        if ¬ isWordChar c then some (d1 ++ '.' :: d2, r3)
        else some (d1, '.' :: r2)
    | [] => some (d1, [])
    | c :: _ => if ¬ isWordChar c then some (d1, r1) else none

/-- `(?!\w)`: does the remaining input fail to start with a word character? -/
def nextNonWord : Str → Bool
  | [] => true
  | c :: _ => ¬ isWordChar c

/-- `re.findall(r'(\d+\.?\d*)', s)`: the non-overlapping numeral captures. -/
def findNumsGo : ℕ → Str → List Str
  | 0, _ => []
  | _ + 1, [] => []
  | fuel + 1, c :: cs =>
    if c.isDigit then
      match lexNum (c :: cs) with
      | some (t, r) => t :: findNumsGo fuel r
      | none => []
    else findNumsGo fuel cs

/-- `re.findall(r'(\d+\.?\d*)', s)`. -/
def findNums (s : Str) : List Str := findNumsGo (s.length + 1) s

/-- `re.findall(r'(?:-|−)(\d+\.?\d*)', s)` (first capture is enough: the
caller uses only `neg_temps[0]`). -/
def findNegNum : Str → Option Str
  | [] => none
  | c :: cs =>
    if c = '-' ∨ c = '−' then
      match lexNum cs with
      | some (t, _) => some t
      | none => findNegNum cs
    else findNegNum cs

/-! ### Temperature patterns (`BatteryEntityExtractor.temperature_patterns`) -/

/-- The range separator `(?:-|–|—|~|to|and)`, case-insensitive variant (for
the `re.IGNORECASE` patterns). -/
def sepTokCI (s : Str) : Option (Str × Str) :=
  match s with
  | c :: r =>
    if c = '-' ∨ c = '–' ∨ c = '—' ∨ c = '~' then some ([c], r)
    else
      match litCI (chars "to") s with
      | some x => some x
      | none => litCI (chars "and") s
  | [] => none

/-- The range separator, case-sensitive variant (for the inner
`re.search(r'\d+\s*(?:-|–|—|~|to|and)\s*\d+', ...)`, compiled without
flags). -/
def sepTokCS (s : Str) : Option (Str × Str) :=
  match s with
  | c :: r =>
    if c = '-' ∨ c = '–' ∨ c = '—' ∨ c = '~' then some ([c], r)
    else
      match litCS (chars "to") s with
      | some x => some x
      | none => litCS (chars "and") s
  | [] => none

/-- `(?:°|deg(?:rees?)?|℃)` (one alternative of the optional degree token). -/
def degreeTok (s : Str) : Option (Str × Str) :=
  match s with
  | '°' :: r => some (['°'], r)
  | _ =>
    match litCI (chars "deg") s with
    | some (t1, r1) =>
      match litCI (chars "rees") r1 with
      | some (t2, r2) => some (t1 ++ t2, r2)
      | none =>
        match litCI (chars "ree") r1 with
        | some (t2, r2) => some (t1 ++ t2, r2)
        | none => some (t1, r1)
    | none =>
      match s with
      | '℃' :: r => some (['℃'], r)
      | _ => none

/-- `(?:\b|elsius)` after the `[Cc]`: a word boundary (next character not a
word character, tried first) or the literal `elsius`. -/
def cTailTok (s : Str) : Option (Str × Str) :=
  match s with
  | [] => some ([], [])
  | c :: _ => if ¬ isWordChar c then some ([], s) else litCI (chars "elsius") s

/-- Temperature pattern 1:
`(\d+\.?\d*)\s*(?:°|deg(?:rees?)?|℃)?\s*[Cc](?:\b|elsius)`. -/
def matchTemp1 (s : Str) : Option (Str × Str) :=
  match lexNum s with
  | none => none
  | some (num, r1) =>
    let (sp1, r2) := spanP isWS r1
    let (deg, r3) :=
      match degreeTok r2 with
      | some (t, r) => (t, r)
      | none => (([] : Str), r2)
    let (sp2, r4) := spanP isWS r3
    match r4 with
    | c :: r5 =>
      if lowC c = 'c' then
        match cTailTok r5 with
        | some (t, r6) => some (num ++ sp1 ++ deg ++ sp2 ++ c :: t, r6)
        | none => none
      else none
    | [] => none

/-- Temperature pattern 2: `(\d+\.?\d*)\s*℃`. -/
def matchTemp2 (s : Str) : Option (Str × Str) :=
  match lexNum s with
  | none => none
  | some (num, r1) =>
    let (sp1, r2) := spanP isWS r1
    match r2 with
    | '℃' :: r3 => some (num ++ sp1 ++ ['℃'], r3)
    | _ => none

/-- Temperature pattern 3:
`(?:room|ambient)\s+temp(?:erature)?|(?<!\w)RT(?!\w)` (the only pattern with
a look-behind, hence the previous-character context). -/
def matchTemp3 (prev : Option Char) (s : Str) : Option (Str × Str) :=
  let roomPart :=
    match (litCI (chars "room") s).orElse fun _ => litCI (chars "ambient") s with
    | some (t1, r1) =>
      match ws1 r1 with
      | some (sp, r2) =>
        match litCI (chars "temp") r2 with
        | some (t2, r3) =>
          match litCI (chars "erature") r3 with
          | some (t3, r4) => some (t1 ++ sp ++ t2 ++ t3, r4)
          | none => some (t1 ++ sp ++ t2, r3)
        | none => none
      | none => none
    | none => none
  match roomPart with
  | some x => some x
  | none =>
    if (match prev with | some p => !(isWordChar p) | none => true) then
      match litCI (chars "rt") s with
      | some (t, r) => if nextNonWord r then some (t, r) else none
      | none => none
    else none

/-- Temperature pattern 4:
`(?:-|−)(\d+\.?\d*)\s*(?:°|deg(?:rees?)?|℃)?\s*[Cc](?:\b|elsius)` (the body
after the sign is exactly pattern 1). -/
def matchTemp4 (s : Str) : Option (Str × Str) :=
  match s with
  | c :: r0 =>
    if c = '-' ∨ c = '−' then
      match matchTemp1 r0 with
      | some (t, r) => some (c :: t, r)
      | none => none
    else none
  | [] => none

/-- Temperature pattern 5:
`(\d+\.?\d*)\s*(?:-|–|—|~|to|and)\s*(\d+\.?\d*)\s*(?:°|deg(?:rees?)?|℃)?\s*[Cc](?:\b|elsius)`
(the part after the separator is exactly pattern 1). -/
def matchTemp5 (s : Str) : Option (Str × Str) :=
  match lexNum s with
  | none => none
  | some (n1, r1) =>
    let (sp1, r2) := spanP isWS r1
    match sepTokCI r2 with
    | some (sep, r3) =>
      let (sp2, r4) := spanP isWS r3
      match matchTemp1 r4 with
      | some (t, r) => some (n1 ++ sp1 ++ sep ++ sp2 ++ t, r)
      | none => none
    | none => none

/-- The inner range test `re.search(r'\d+\s*(?:-|–|—|~|to|and)\s*\d+', g)`
(compiled without `re.IGNORECASE`). -/
def matchRangeIn (s : Str) : Option (Str × Str) :=
  let d1 := s.takeWhile Char.isDigit
  let r1 := s.dropWhile Char.isDigit
  if d1.isEmpty then none
  else
    let (sp1, r2) := spanP isWS r1
    match sepTokCS r2 with
    | some (sep, r3) =>
      let (sp2, r4) := spanP isWS r3
      let d2 := r4.takeWhile Char.isDigit
      let r5 := r4.dropWhile Char.isDigit
      if d2.isEmpty then none else some (d1 ++ sp1 ++ sep ++ sp2 ++ d2, r5)
    | none => none

/-- Does the match text contain a two-number range? -/
def hasRangeIn (g : Str) : Bool := (searchPat matchRangeIn g).isSome

/-- The per-match body of `extract_temperature`'s `finditer` loop: room
temperature first, then range averaging, then negative values, then the
first numeral. -/
def tempBranch (g : Str) : Option ℚ :=
  let gl := lowerStr g
  if containsSub (chars "room") gl ∨ containsSub (chars "ambient") gl ∨
      containsSub (chars "rt") gl then
    some 25
  else
    match (if hasRangeIn g then
             match findNums g with
             | t1 :: t2 :: _ => some ((pyFloat t1 + pyFloat t2) / 2)
             | _ => none
           else none) with
    | some v => some v
    | none =>
      match (if containsChar '-' g ∨ containsChar '−' g then
               (findNegNum g).map fun n => -(pyFloat n)
             else none) with
      | some v => some v
      | none => (findNums g).head?.map pyFloat

/-- `BatteryEntityExtractor.extract_temperature` (src/dual_model.py:152). -/
def extract_temperature (s : Str) : Option ℚ :=
  match finditerRun matchTemp1 tempBranch s with
  | some v => some v
  | none =>
    match finditerRun matchTemp2 tempBranch s with
    | some v => some v
    | none =>
      match finditerRunCtx matchTemp3 tempBranch s with
      | some v => some v
      | none =>
        match finditerRun matchTemp4 tempBranch s with
        | some v => some v
        | none => finditerRun matchTemp5 tempBranch s

/-! ### Voltage patterns (`BatteryEntityExtractor.voltage_patterns`) -/

/-- `(?:V|volts?)(?!\w)`: the alternative `V` is tried first; when its
look-ahead fails the engine backtracks into `volts?` (greedy `s?`, each
candidate checked against the look-ahead). -/
def vUnitTok (s : Str) : Option (Str × Str) :=
  match s with
  | c :: r =>
    if lowC c = 'v' then
      if nextNonWord r then some ([c], r)
      else
        match litCI (chars "olt") r with
        | some (t2, r2) =>
          match r2 with
          | c2 :: r3 =>
            if lowC c2 = 's' ∧ nextNonWord r3 then some (c :: t2 ++ [c2], r3)
            else if nextNonWord r2 then some (c :: t2, r2)
            else none
          | [] => some (c :: t2, [])
        | none => none
    else none
  | [] => none

/-- `(?:V|volts?)` without the look-ahead (the stand-alone lower/upper/cutoff
searches end here): the first alternative `V` always wins. -/
def vUnitTokNoLA (s : Str) : Option (Str × Str) :=
  match s with
  | c :: r => if lowC c = 'v' then some ([c], r) else none
  | [] => none

/-- `(?:\s+WORD)?` (optional whitespace-prefixed literal word). -/
def optPhrase (w : String) (s : Str) : Str × Str :=
  match ws1 s with
  | some (sp, r) =>
    match litCI (chars w) r with
    | some (t, r2) => (sp ++ t, r2)
    | none => ([], s)
  | none => ([], s)

/-- `(?:\s*:)?` (optional colon with leading whitespace). -/
def optColon (s : Str) : Str × Str :=
  let (sp, r) := spanP isWS s
  match r with
  | ':' :: r2 => (sp ++ [':'], r2)
  | _ => ([], s)

/-- Voltage pattern 1: `(\d+\.?\d*)\s*(?:V|volts?)(?!\w)`. -/
def matchVolt1 (s : Str) : Option (Str × Str) :=
  match lexNum s with
  | none => none
  | some (n, r1) =>
    let (sp, r2) := spanP isWS r1
    (vUnitTok r2).map fun tr => (n ++ sp ++ tr.1, tr.2)

/-- Voltage pattern 2:
`(\d+\.?\d*)\s*(?:-|–|—|~|to|and)\s*(\d+\.?\d*)\s*(?:V|volts?)(?!\w)`. -/
def matchVolt2 (s : Str) : Option (Str × Str) :=
  match lexNum s with
  | none => none
  | some (n1, r1) =>
    let (sp1, r2) := spanP isWS r1
    match sepTokCI r2 with
    | some (sep, r3) =>
      let (sp2, r4) := spanP isWS r3
      match lexNum r4 with
      | some (n2, r5) =>
        let (sp3, r6) := spanP isWS r5
        (vUnitTok r6).map fun tr => (n1 ++ sp1 ++ sep ++ sp2 ++ n2 ++ sp3 ++ tr.1, tr.2)
      | none => none
    | none => none

/-- `cut[\s-]*off|cutoff|limiting` (the head of the cut-off patterns; the
middle alternative is subsumed by the first with an empty `[\s-]*`, and the
class cannot consume an `o`, so the greedy class needs no backtracking). -/
def cutHeadTok (s : Str) : Option (Str × Str) :=
  match litCI (chars "cut") s with
  | some (t1, r1) =>
    let (sp, r2) := spanP (fun c => isWS c || c = '-') r1
    match litCI (chars "off") r2 with
    | some (t2, r3) => some (t1 ++ sp ++ t2, r3)
    | none => litCI (chars "limiting") s
  | none => litCI (chars "limiting") s

/-- The shared tail `(?:\s+voltage)?(?:\s+of)?(?:\s*:)?\s*(\d+\.?\d*)\s*` +
voltage unit (with or without the final look-ahead); returns
(consumed text, capture, rest). -/
def cutTail (la : Bool) (r1 : Str) : Option (Str × Str × Str) :=
  let (t2, r2) := optPhrase "voltage" r1
  let (t3, r3) := optPhrase "of" r2
  let (t4, r4) := optColon r3
  let (sp, r5) := spanP isWS r4
  match lexNum r5 with
  | some (cap, r6) =>
    let (sp2, r7) := spanP isWS r6
    match (if la then vUnitTok r7 else vUnitTokNoLA r7) with
    | some (t5, r8) => some (t2 ++ t3 ++ t4 ++ sp ++ cap ++ sp2 ++ t5, cap, r8)
    | none => none
  | none => none

/-- Voltage pattern 3 (and, without the look-ahead, the stand-alone cut-off
search of `extract_voltage_limits`):
`(?:cut[\s-]*off|cutoff|limiting)(?:\s+voltage)?(?:\s+of)?(?:\s*:)?\s*(\d+\.?\d*)\s*(?:V|volts?)[(?!\w)]`. -/
def matchCutoff (la : Bool) (s : Str) : Option (Str × Str × Str) :=
  match cutHeadTok s with
  | some (t1, r1) => (cutTail la r1).map fun x => (t1 ++ x.1, x.2.1, x.2.2)
  | none => none

/-- The tail `(?:\s+limit|\s+cutoff|\s+voltage)(?:\s+of)?(?:\s*:)?\s*(\d+\.?\d*)\s*` +
voltage unit, shared by the limit-phrase patterns. -/
def limTail (la : Bool) (r1 : Str) : Option (Str × Str × Str) :=
  match ws1 r1 with
  | none => none
  | some (sp, r2) =>
    let word :=
      match litCI (chars "limit") r2 with
      | some x => some x
      | none =>
        match litCI (chars "cutoff") r2 with
        | some x => some x
        | none => litCI (chars "voltage") r2
    match word with
    | none => none
    | some (tw, r3) =>
      let (t3, r4) := optPhrase "of" r3
      let (t4, r5) := optColon r4
      let (sp2, r6) := spanP isWS r5
      match lexNum r6 with
      | some (cap, r7) =>
        let (sp3, r8) := spanP isWS r7
        match (if la then vUnitTok r8 else vUnitTokNoLA r8) with
        | some (t5, r9) => some (sp ++ tw ++ t3 ++ t4 ++ sp2 ++ cap ++ sp3 ++ t5, cap, r9)
        | none => none
      | none => none

/-- A limit phrase `(?:HEAD₁|HEAD₂|…)(?:\s+limit|\s+cutoff|\s+voltage)…`:
each head alternative is tried with the full tail (the engine backtracks
into later head alternatives when the tail fails). -/
def limPhrase (heads : List String) (la : Bool) (s : Str) : Option (Str × Str × Str) :=
  match heads with
  | [] => none
  | h :: hs =>
    match litCI (chars h) s with
    | some (t1, r1) =>
      match limTail la r1 with
      | some x => some (t1 ++ x.1, x.2.1, x.2.2)
      | none => limPhrase hs la s
    | none => limPhrase hs la s

/-- Voltage pattern 4:
`(?:upper|lower|high|low)(?:\s+limit|\s+cutoff|\s+voltage)(?:\s+of)?(?:\s*:)?\s*(\d+\.?\d*)\s*(?:V|volts?)(?!\w)`. -/
def matchVolt4 (s : Str) : Option (Str × Str) :=
  (limPhrase ["upper", "lower", "high", "low"] true s).map fun x => (x.1, x.2.2)

/-- Voltage pattern 3 as used in the pattern loop (match text only). -/
def matchVolt3 (s : Str) : Option (Str × Str) :=
  (matchCutoff true s).map fun x => (x.1, x.2.2)

/-- Voltage pattern 5:
`voltage\s+window(?:\s+of)?(?:\s*:)?\s*(\d+\.?\d*)\s*(?:-|–|—|~|to|and)\s*(\d+\.?\d*)\s*(?:V|volts?)(?!\w)`. -/
def matchVolt5 (s : Str) : Option (Str × Str) :=
  match litCI (chars "voltage") s with
  | none => none
  | some (t1, r1) =>
    match ws1 r1 with
    | none => none
    | some (sp, r2) =>
      match litCI (chars "window") r2 with
      | none => none
      | some (t2, r3) =>
        let (t3, r4) := optPhrase "of" r3
        let (t4, r5) := optColon r4
        let (sp2, r6) := spanP isWS r5
        match lexNum r6 with
        | none => none
        | some (n1, r7) =>
          let (sp3, r8) := spanP isWS r7
          match sepTokCI r8 with
          | none => none
          | some (sep, r9) =>
            let (sp4, r10) := spanP isWS r9
            match lexNum r10 with
            | none => none
            | some (n2, r11) =>
              let (sp5, r12) := spanP isWS r11
              (vUnitTok r12).map fun tr =>
                (t1 ++ sp ++ t2 ++ t3 ++ t4 ++ sp2 ++ n1 ++ sp3 ++ sep ++ sp4 ++ n2 ++
                  sp5 ++ tr.1, tr.2)

/-- The five patterns of `voltage_patterns`, in source order. -/
def voltagePatterns : List (Str → Option (Str × Str)) :=
  [matchVolt1, matchVolt2, matchVolt3, matchVolt4, matchVolt5]

/-- The per-match body of the voltage pattern loop: on a match text with a
two-number range and at least two numerals, return the `(min, max)` pair. -/
def voltBranch (g : Str) : Option (ℚ × ℚ) :=
  if hasRangeIn g then
    match findNums g with
    | v1 :: v2 :: _ =>
      some (min (pyFloat v1) (pyFloat v2), max (pyFloat v1) (pyFloat v2))
    | _ => none
  else none

/-- The voltage pattern loop: each pattern's first range-carrying match
overwrites the accumulated `(lower, upper)` pair. -/
def voltLoop (s : Str) : List (Str → Option (Str × Str)) →
    Option ℚ × Option ℚ → Option ℚ × Option ℚ
  | [], acc => acc
  | m :: ms, acc =>
    match finditerRun m voltBranch s with
    | some (lo, up) => voltLoop s ms (some lo, some up)
    | none => voltLoop s ms acc

/-- `BatteryEntityExtractor.extract_voltage_limits` (src/dual_model.py:181).
Returns the pair (lower, upper). -/
def extract_voltage_limits (s : Str) : Option ℚ × Option ℚ :=
  let lower0 := (searchPat (limPhrase ["lower", "low"] false) s).map fun x => pyFloat x.2.1
  let upper0 := (searchPat (limPhrase ["upper", "high"] false) s).map fun x => pyFloat x.2.1
  let acc := voltLoop s voltagePatterns (lower0, upper0)
  match searchPat (matchCutoff false) s with
  | some x =>
    if acc.1 = none ∨ acc.1 = some 0 then (some (pyFloat x.2.1), acc.2) else acc
  | none => acc

/-! ### C-rate patterns (`BatteryEntityExtractor.crate_patterns`) -/

/-- `(?:\-?rate)?` after a `[Cc]` when the following element is mandatory
non-word material (`\s+`, `\s*[∕-]`): the greedy parse is the regex parse
because on the no-consume path the next element would have to match at `-`
or `r`, which it never can.  Returns the consumed text. -/
def dashRate (r : Str) : Option (Str × Str) :=
  match r with
  | '-' :: r2 => (litCI (chars "rate") r2).map fun tr => ('-' :: tr.1, tr.2)
  | _ => litCI (chars "rate") r

/-- `[Cc](?:\-?rate)?` with the no-op optional look-ahead `(?!\w)?`. -/
def cRateTok (s : Str) : Option (Str × Str) :=
  match s with
  | c :: r =>
    if lowC c = 'c' then
      match dashRate r with
      | some (t, r2) => some (c :: t, r2)
      | none => some ([c], r)
    else none
  | [] => none

/-- `[Cc](?:\-?rate)?(?!\w)` with a real look-ahead: try the suffixed form
first, fall back to the bare `[Cc]` when the look-ahead rejects it. -/
def cRateTokNW (s : Str) : Option (Str × Str) :=
  match s with
  | c :: r =>
    if lowC c = 'c' then
      match (dashRate r).bind fun (t, r2) =>
          (if nextNonWord r2 then some (c :: t, r2) else none) with
      | some x => some x
      | none => if nextNonWord r then some ([c], r) else none
    else none
  | [] => none

/-- `(?:charge|charg\.|charging)` (the dot is escaped in the source). -/
def chargeTok (s : Str) : Option (Str × Str) :=
  match litCI (chars "charge") s with
  | some x => some x
  | none =>
    match litCI (chars "charg.") s with
    | some x => some x
    | none => litCI (chars "charging") s

/-- `(?:discharge|disch\.|discharging)`. -/
def dischargeTok (s : Str) : Option (Str × Str) :=
  match litCI (chars "discharge") s with
  | some x => some x
  | none =>
    match litCI (chars "disch.") s with
    | some x => some x
    | none => litCI (chars "discharging") s

/-- `(?:\s+and|\s*,)?` between the charge and discharge clauses. -/
def optAndComma (s : Str) : Str × Str :=
  let alt1 :=
    match ws1 s with
    | some (sp, r) => (litCI (chars "and") r).map fun tr => (sp ++ tr.1, tr.2)
    | none => none
  match alt1 with
  | some x => x
  | none =>
    let (sp, r) := spanP isWS s
    match r with
    | ',' :: r2 => (sp ++ [','], r2)
    | _ => ([], s)

/-- C-rate pattern 3 (explicit charge/discharge), returning the two captures:
`(\d+\.?\d*)\s*[Cc](?:\-?rate)?(?!\w)?\s+(?:charge|charg\.|charging)(?:\s+and|\s*,)?\s+(\d+\.?\d*)\s*[Cc](?:\-?rate)?(?!\w)?\s+(?:discharge|disch\.|discharging)`. -/
def matchCD (s : Str) : Option (Str × Str) :=
  match lexNum s with
  | none => none
  | some (n1, r1) =>
    let (_, r2) := spanP isWS r1
    match cRateTok r2 with
    | none => none
    | some (_, r3) =>
      match ws1 r3 with
      | none => none
      | some (_, r4) =>
        match chargeTok r4 with
        | none => none
        | some (_, r5) =>
          let (_, r6) := optAndComma r5
          match ws1 r6 with
          | none => none
          | some (_, r7) =>
            match lexNum r7 with
            | none => none
            | some (n2, r8) =>
              let (_, r9) := spanP isWS r8
              match cRateTok r9 with
              | none => none
              | some (_, r10) =>
                match ws1 r10 with
                | none => none
                | some (_, r11) =>
                  match dischargeTok r11 with
                  | some _ => some (n1, n2)
                  | none => none

/-- C-rate pattern 2 (asymmetric rates), returning the two captures:
`(\d+\.?\d*)\s*[Cc](?:\-?rate)?(?!\w)?\s*[∕-]\s*(\d+\.?\d*)\s*[Cc](?:\-?rate)?(?!\w)?`. -/
def matchAsym (s : Str) : Option (Str × Str) :=
  match lexNum s with
  | none => none
  | some (n1, r1) =>
    let (_, r2) := spanP isWS r1
    match cRateTok r2 with
    | none => none
    | some (_, r3) =>
      let (_, r4) := spanP isWS r3
      match r4 with
      | c :: r5 =>
        if c = '/' ∨ c = '-' then
          let (_, r6) := spanP isWS r5
          match lexNum r6 with
          | none => none
          | some (n2, r7) =>
            let (_, r8) := spanP isWS r7
            match cRateTok r8 with
            | some _ => some (n1, n2)
            | none => none
        else none
      | [] => none

/-- C-rate pattern 5 (constant current), returning the capture:
`constant\s+current\s+(?:of\s+)?(\d+\.?\d*)\s*[Cc](?:\-?rate)?(?!\w)?`. -/
def matchConstCur (s : Str) : Option Str :=
  match litCI (chars "constant") s with
  | none => none
  | some (_, r1) =>
    match ws1 r1 with
    | none => none
    | some (_, r2) =>
      match litCI (chars "current") r2 with
      | none => none
      | some (_, r3) =>
        match ws1 r3 with
        | none => none
        | some (_, r4) =>
          let r5 :=
            match (litCI (chars "of") r4).bind fun (_, ra) => ws1 ra with
            | some (_, rb) => rb
            | none => r4
          match lexNum r5 with
          | none => none
          | some (n, r6) =>
            let (_, r7) := spanP isWS r6
            match cRateTok r7 with
            | some _ => some n
            | none => none

/-- C-rate pattern 5 as a match-text matcher (for the general loop). -/
def matchCr5 (s : Str) : Option (Str × Str) :=
  match litCI (chars "constant") s with
  | none => none
  | some (t1, r1) =>
    match ws1 r1 with
    | none => none
    | some (sp1, r2) =>
      match litCI (chars "current") r2 with
      | none => none
      | some (t2, r3) =>
        match ws1 r3 with
        | none => none
        | some (sp2, r4) =>
          let (tOf, r5) :=
            match (litCI (chars "of") r4).bind fun (tof, ra) =>
                (ws1 ra).map fun (spb, rb) => (tof ++ spb, rb) with
            | some x => x
            | none => (([] : Str), r4)
          match lexNum r5 with
          | none => none
          | some (n, r6) =>
            let (sp3, r7) := spanP isWS r6
            match cRateTok r7 with
            | some (tc, r8) => some (t1 ++ sp1 ++ t2 ++ sp2 ++ tOf ++ n ++ sp3 ++ tc, r8)
            | none => none

/-- C-rate pattern 1 (match text):
`(\d+\.?\d*)\s*[Cc](?:\-?rate)?(?!\w)|[Cc][∕-](\d+\.?\d*)(?!\w)`. -/
def matchCr1 (s : Str) : Option (Str × Str) :=
  let alt1 : Option (Str × Str) :=
    match lexNum s with
    | none => none
    | some (n, r1) =>
      let (sp, r2) := spanP isWS r1
      (cRateTokNW r2).map fun (t, r) => (n ++ sp ++ t, r)
  match alt1 with
  | some x => some x
  | none =>
    match s with
    | c :: c2 :: r =>
      if lowC c = 'c' ∧ (c2 = '/' ∨ c2 = '-') then
        (lexNumNW r).map fun (t, r3) => (c :: c2 :: t, r3)
      else none
    | _ => none

/-- C-rate pattern 2 as a match-text matcher. -/
def matchCr2 (s : Str) : Option (Str × Str) :=
  match lexNum s with
  | none => none
  | some (n1, r1) =>
    let (sp1, r2) := spanP isWS r1
    match cRateTok r2 with
    | none => none
    | some (tc1, r3) =>
      let (sp2, r4) := spanP isWS r3
      match r4 with
      | c :: r5 =>
        if c = '/' ∨ c = '-' then
          let (sp3, r6) := spanP isWS r5
          match lexNum r6 with
          | none => none
          | some (n2, r7) =>
            let (sp4, r8) := spanP isWS r7
            match cRateTok r8 with
            | some (tc2, r9) =>
              some (n1 ++ sp1 ++ tc1 ++ sp2 ++ c :: sp3 ++ n2 ++ sp4 ++ tc2, r9)
            | none => none
        else none
      | [] => none

/-- C-rate pattern 3 as a match-text matcher. -/
def matchCr3 (s : Str) : Option (Str × Str) :=
  match lexNum s with
  | none => none
  | some (n1, r1) =>
    let (sp1, r2) := spanP isWS r1
    match cRateTok r2 with
    | none => none
    | some (tc1, r3) =>
      match ws1 r3 with
      | none => none
      | some (sp2, r4) =>
        match chargeTok r4 with
        | none => none
        | some (tch, r5) =>
          let (tac, r6) := optAndComma r5
          match ws1 r6 with
          | none => none
          | some (sp3, r7) =>
            match lexNum r7 with
            | none => none
            | some (n2, r8) =>
              let (sp4, r9) := spanP isWS r8
              match cRateTok r9 with
              | none => none
              | some (tc2, r10) =>
                match ws1 r10 with
                | none => none
                | some (sp5, r11) =>
                  match dischargeTok r11 with
                  | some (tdch, r12) =>
                    some (n1 ++ sp1 ++ tc1 ++ sp2 ++ tch ++ tac ++ sp3 ++ n2 ++
                      sp4 ++ tc2 ++ sp5 ++ tdch, r12)
                  | none => none

/-- The current-density unit group of C-rate pattern 4 and the capacity
patterns: `(?:/|\s*g(?:ram)?[-−]?1|(?:\s*g(?:ram)?[\^]?[-−]?1))`. -/
def perGramTok (s : Str) : Option (Str × Str) :=
  match s with
  | '/' :: r => some (['/'], r)
  | _ =>
    let alt (caret : Bool) : Option (Str × Str) :=
      let (sp, r1) := spanP isWS s
      match litCI (chars "g") r1 with
      | none => none
      | some (tg, r2) =>
        let (tram, r3) :=
          match litCI (chars "ram") r2 with
          | some x => x
          | none => (([] : Str), r2)
        let (tcar, r4) :=
          if caret then
            match r3 with
            | '^' :: rr => ((['^'] : Str), rr)
            | _ => (([] : Str), r3)
          else (([] : Str), r3)
        let (tdash, r5) :=
          match r4 with
          | c :: rr => if c = '-' ∨ c = '−' then ([c], rr) else (([] : Str), r4)
          | [] => (([] : Str), r4)
        match r5 with
        | '1' :: r6 => some (sp ++ tg ++ tram ++ tcar ++ tdash ++ ['1'], r6)
        | _ => none
    match alt false with
    | some x => some x
    | none => alt true

/-- The optional metric prefix `(?:m|micro|μ|u)?` followed by the rest of the
pattern: each alternative (and then the empty choice) is tried with the
continuation, as the engine backtracks across them. -/
def optPrefixThen (k : Str → Option (Str × Str)) (s : Str) : Option (Str × Str) :=
  let tryLit (w : String) : Option (Str × Str) :=
    (litCI (chars w) s).bind fun (t, r) => (k r).map fun kr => (t ++ kr.1, kr.2)
  match tryLit "m" with
  | some x => some x
  | none =>
    match tryLit "micro" with
    | some x => some x
    | none =>
      match tryLit "μ" with
      | some x => some x
      | none =>
        match tryLit "u" with
        | some x => some x
        | none => k s

/-- C-rate pattern 4 (current density):
`(\d+\.?\d*)\s*(?:m|micro|μ|u)?[Aa](?:/|\s*g(?:ram)?[-−]?1|(?:\s*g(?:ram)?[\^]?[-−]?1))`. -/
def matchCr4 (s : Str) : Option (Str × Str) :=
  match lexNum s with
  | none => none
  | some (n, r1) =>
    let (sp, r2) := spanP isWS r1
    let aTail (u : Str) : Option (Str × Str) :=
      match u with
      | c :: r3 =>
        if lowC c = 'a' then (perGramTok r3).map fun tr => (c :: tr.1, tr.2) else none
      | [] => none
    (optPrefixThen aTail r2).map fun tr => (n ++ sp ++ tr.1, tr.2)

/-- `[Cc][∕-](\d+\.?\d*)` (the denominator search inside the `C/n` branch;
compiled without flags but with an explicit `[Cc]` class). -/
def matchCdenom (s : Str) : Option Str :=
  match s with
  | c :: c2 :: r =>
    if (c = 'C' ∨ c = 'c') ∧ (c2 = '/' ∨ c2 = '-') then
      (lexNum r).map fun tr => tr.1
    else none
  | _ => none

/-- `BatteryEntityExtractor._normalize_crate` (src/dual_model.py:277):
`float` with the exception swallowed to `None`. -/
def _normalize_crate (s : Str) : Option ℚ := parseFloatQ s

/-- The general fallback loop over `crate_patterns`, with the `C/n` branch
and the symmetric single-rate assignment; `1.0 / float(den)` raises
`ZeroDivisionError` when the denominator is zero, hence the `Except`. -/
def crateLoop (s : Str) : List (Str → Option (Str × Str)) →
    Except Unit (Option ℚ × Option ℚ)
  | [] => .ok (none, none)
  | m :: ms =>
    match searchPat m s with
    | some (g, _) =>
      let numsFallback : Except Unit (Option ℚ × Option ℚ) :=
        match findNums g with
        | v :: _ => let rate := _normalize_crate v; .ok (rate, rate)
        | [] => crateLoop s ms
      if ¬ g.isEmpty ∧ containsChar '/' g ∧ g.head? = some 'C' then
        match searchPat matchCdenom g with
        | some d =>
          if ¬ d.isEmpty then
            if pyFloat d = 0 then .error ()
            else let rate : ℚ := 1 / pyFloat d; .ok (some rate, some rate)
          else numsFallback
        | none => numsFallback
      else numsFallback
    | none => crateLoop s ms

/-- `BatteryEntityExtractor.extract_crates` (src/dual_model.py:222). -/
def extract_crates (s : Str) : Except Unit (Option ℚ × Option ℚ) :=
  match searchPat matchCD s with
  | some (g1, g2) => .ok (_normalize_crate g1, _normalize_crate g2)
  | none =>
    match searchPat matchAsym s with
    | some (g1, g2) => .ok (_normalize_crate g1, _normalize_crate g2)
    | none =>
      match searchPat matchConstCur s with
      | some g => let rate := _normalize_crate g; .ok (rate, rate)
      | none => crateLoop s [matchCr1, matchCr2, matchCr3, matchCr4, matchCr5]

/-! ### Capacity, retention and cycle-count patterns -/

/-- Capacity pattern 1:
`(\d+\.?\d*)\s*(?:m|micro|μ|u)?[Aa]h(?:/|\s*g(?:ram)?[-−]?1|(?:\s*g(?:ram)?[\^]?[-−]?1))`
(like C-rate pattern 4 with `Ah` in place of `A`). -/
def matchCap1 (s : Str) : Option (Str × Str) :=
  match lexNum s with
  | none => none
  | some (n, r1) =>
    let (sp, r2) := spanP isWS r1
    let ahTail (u : Str) : Option (Str × Str) :=
      match u with
      | c :: c2 :: r3 =>
        if lowC c = 'a' ∧ lowC c2 = 'h' then
          (perGramTok r3).map fun (t, r) => (c :: c2 :: t, r)
        else none
      | _ => none
    (optPrefixThen ahTail r2).map fun (t, r) => (n ++ sp ++ t, r)

/-- Capacity pattern 2:
`(?:capacity|specific capacity)(?:\s+of)?\s*:?\s*(\d+\.?\d*)\s*(?:m|micro|μ|u)?[Aa]h(…)`
(the word `specific capacity` contains a literal space). -/
def matchCap2 (s : Str) : Option (Str × Str) :=
  let headThen (w : String) : Option (Str × Str) :=
    match litCI (chars w) s with
    | none => none
    | some (t1, r1) =>
      let (t2, r2) := optPhrase "of" r1
      let (sp1, r3) := spanP isWS r2
      let (tc, r4) :=
        match r3 with
        | ':' :: rr => (([':'] : Str), rr)
        | _ => (([] : Str), r3)
      let (sp2, r5) := spanP isWS r4
      match lexNum r5 with
      | none => none
      | some (n, r6) =>
        let (sp3, r7) := spanP isWS r6
        let ahTail (u : Str) : Option (Str × Str) :=
          match u with
          | c :: c2 :: r8 =>
            if lowC c = 'a' ∧ lowC c2 = 'h' then
              (perGramTok r8).map fun (t, r) => (c :: c2 :: t, r)
            else none
          | _ => none
        (optPrefixThen ahTail r7).map fun (t, r) =>
          (t1 ++ t2 ++ sp1 ++ tc ++ sp2 ++ n ++ sp3 ++ t, r)
  match headThen "capacity" with
  | some x => some x
  | none => headThen "specific capacity"

/-- The retention head `capacity\s+retention|retention\s+of\s+capacity`. -/
def retHeadTok (s : Str) : Option (Str × Str) :=
  let alt1 :=
    match litCI (chars "capacity") s with
    | none => none
    | some (t1, r1) =>
      match ws1 r1 with
      | none => none
      | some (sp, r2) =>
        (litCI (chars "retention") r2).map fun (t2, r3) => (t1 ++ sp ++ t2, r3)
  match alt1 with
  | some x => some x
  | none =>
    match litCI (chars "retention") s with
    | none => none
    | some (t1, r1) =>
      match ws1 r1 with
      | none => none
      | some (sp1, r2) =>
        match litCI (chars "of") r2 with
        | none => none
        | some (t2, r3) =>
          match ws1 r3 with
          | none => none
          | some (sp2, r4) =>
            (litCI (chars "capacity") r4).map fun (t3, r5) =>
              (t1 ++ sp1 ++ t2 ++ sp2 ++ t3, r5)

/-- Capacity pattern 3 / the retention pattern, with its two top-level
alternatives and their capture groups:
`(?:capacity\s+retention|retention\s+of\s+capacity)(?:\s+of)?\s*:?\s*(\d+\.?\d*)\s*%|(\d+\.?\d*)\s*%\s+(?:capacity\s+retention|retention\s+of\s+capacity)`;
the payload records the matched text and which group captured. -/
def matchRet (s : Str) : Option (Str × (Str ⊕ Str) × Str) :=
  let alt1 :=
    match retHeadTok s with
    | none => none
    | some (t1, r1) =>
      let (t2, r2) := optPhrase "of" r1
      let (sp1, r3) := spanP isWS r2
      let (tc, r4) :=
        match r3 with
        | ':' :: rr => (([':'] : Str), rr)
        | _ => (([] : Str), r3)
      let (sp2, r5) := spanP isWS r4
      match lexNum r5 with
      | none => none
      | some (n, r6) =>
        let (sp3, r7) := spanP isWS r6
        match r7 with
        | '%' :: r8 => some (t1 ++ t2 ++ sp1 ++ tc ++ sp2 ++ n ++ sp3 ++ ['%'], .inl n, r8)
        | _ => none
  match alt1 with
  | some x => some x
  | none =>
    match lexNum s with
    | none => none
    | some (n, r1) =>
      let (sp1, r2) := spanP isWS r1
      match r2 with
      | '%' :: r3 =>
        match ws1 r3 with
        | none => none
        | some (sp2, r4) =>
          (retHeadTok r4).map fun (t, r5) =>
            (n ++ sp1 ++ '%' :: sp2 ++ t, .inr n, r5)
      | _ => none

/-- `BatteryEntityExtractor.extract_capacity` (src/dual_model.py:284): loop
over the three capacity patterns, first match with a numeral wins. -/
def extract_capacity (s : Str) : Option ℚ :=
  let fromMatch (g : Str) : Option ℚ := (findNums g).head?.map pyFloat
  match (searchPat matchCap1 s).bind fun (g, _) => fromMatch g with
  | some v => some v
  | none =>
    match (searchPat matchCap2 s).bind fun (g, _) => fromMatch g with
    | some v => some v
    | none => (searchPat matchRet s).bind fun x => fromMatch x.1

/-- `BatteryEntityExtractor.extract_capacity_retention` (src/dual_model.py:294):
the first non-empty capture group of the retention pattern. -/
def extract_capacity_retention (s : Str) : Option ℚ :=
  (searchPat matchRet s).map fun x =>
    match x.2.1 with
    | .inl g => pyFloat g
    | .inr g => pyFloat g

/-- `cycles?` (the literal `cycle` with an optional `s`). -/
def cyclesTok (s : Str) : Option (Str × Str) :=
  match litCI (chars "cycle") s with
  | none => none
  | some (t, r) =>
    match r with
    | c :: r2 => if lowC c = 's' then some (t ++ [c], r2) else some (t, r)
    | [] => some (t, [])

/-- Cycle pattern 1, with its three alternatives and which group captured:
`(?:for|after)\s+(\d+)\s+cycles?|(\d+)(?:th|st|nd|rd)?\s+cycles?|cycles?(?:\s+of)?\s*:?\s*(\d+)`. -/
def matchCyc1 (s : Str) : Option Str :=
  let alt1 :=
    match (litCI (chars "for") s).orElse fun _ => litCI (chars "after") s with
    | none => none
    | some (_, r1) =>
      match ws1 r1 with
      | none => none
      | some (_, r2) =>
        let d := r2.takeWhile Char.isDigit
        let r3 := r2.dropWhile Char.isDigit
        if d.isEmpty then none
        else
          match ws1 r3 with
          | none => none
          | some (_, r4) => (cyclesTok r4).map fun _ => d
  match alt1 with
  | some x => some x
  | none =>
    let alt2 :=
      let d := s.takeWhile Char.isDigit
      let r1 := s.dropWhile Char.isDigit
      if d.isEmpty then none
      else
        let r2 :=
          match (litCI (chars "th") r1).orElse fun _ =>
              (litCI (chars "st") r1).orElse fun _ =>
                (litCI (chars "nd") r1).orElse fun _ => litCI (chars "rd") r1 with
          | some (_, rr) => rr
          | none => r1
        match ws1 r2 with
        | none => none
        | some (_, r3) => (cyclesTok r3).map fun _ => d
    match alt2 with
    | some x => some x
    | none =>
      match cyclesTok s with
      | none => none
      | some (_, r1) =>
        let (_, r2) := optPhrase "of" r1
        let (_, r3) := optColon r2
        let (_, r4) := spanP isWS r3
        let d := r4.takeWhile Char.isDigit
        if d.isEmpty then none else some d

/-- Cycle pattern 2: `cycle\s+life(?:\s+of)?\s*:?\s*(\d+)(?:\s+cycles?)?`
(the trailing optional group does not affect the capture). -/
def matchCyc2 (s : Str) : Option Str :=
  match litCI (chars "cycle") s with
  | none => none
  | some (_, r1) =>
    match ws1 r1 with
    | none => none
    | some (_, r2) =>
      match litCI (chars "life") r2 with
      | none => none
      | some (_, r3) =>
        let (_, r4) := optPhrase "of" r3
        let (_, r5) := optColon r4
        let (_, r6) := spanP isWS r5
        let d := r6.takeWhile Char.isDigit
        if d.isEmpty then none else some d

/-- `BatteryEntityExtractor.extract_cycle_count` (src/dual_model.py:306):
the first all-digit capture, as an integer (`int(g)`). -/
def extract_cycle_count (s : Str) : Option ℕ :=
  match searchPat matchCyc1 s with
  | some d => some (natOfDigits d)
  | none => (searchPat matchCyc2 s).map natOfDigits

/-! ### Material and binder patterns -/

/-- An optional case-insensitive literal (greedy). -/
def optLit (w : String) (s : Str) : Str × Str :=
  match litCI (chars w) s with
  | some x => x
  | none => ([], s)

/-- `[\d\.]*`. -/
def digitsDots (s : Str) : Str × Str := spanP (fun c => c.isDigit || c = '.') s

/-- Cathode pattern 1:
`Li(?:thium)?Ni(?:ckel)?[\d\.]*Co(?:balt)?[\d\.]*(?:Mn(?:ganese)?|Al(?:uminum)?)[\d\.]*O[\d\.]*`. -/
def matchCath1 (s : Str) : Option (Str × Str) :=
  match litCI (chars "li") s with
  | none => none
  | some (t1, r1) =>
    let (t2, r2) := optLit "thium" r1
    match litCI (chars "ni") r2 with
    | none => none
    | some (t3, r3) =>
      let (t4, r4) := optLit "ckel" r3
      let (d1, r5) := digitsDots r4
      match litCI (chars "co") r5 with
      | none => none
      | some (t5, r6) =>
        let (t6, r7) := optLit "balt" r6
        let (d2, r8) := digitsDots r7
        let mnal :=
          match litCI (chars "mn") r8 with
          | some (ta, ra) => let (tb, rb) := optLit "ganese" ra; some (ta ++ tb, rb)
          | none =>
            match litCI (chars "al") r8 with
            | some (ta, ra) => let (tb, rb) := optLit "uminum" ra; some (ta ++ tb, rb)
            | none => none
        match mnal with
        | none => none
        | some (t7, r9) =>
          let (d3, r10) := digitsDots r9
          match r10 with
          | c :: r11 =>
            if lowC c = 'o' then
              let (d4, r12) := digitsDots r11
              some (t1 ++ t2 ++ t3 ++ t4 ++ d1 ++ t5 ++ t6 ++ d2 ++ t7 ++ d3 ++
                c :: d4, r12)
            else none
          | [] => none

/-- Cathode pattern 2: `NC(?:M|A)(?:\d{3}|\d{4}|\d{6})` (with nothing after
the digit alternatives, the three-digit alternative always wins when at
least three digits follow). -/
def matchCath2 (s : Str) : Option (Str × Str) :=
  match s with
  | c1 :: c2 :: c3 :: r =>
    if lowC c1 = 'n' ∧ lowC c2 = 'c' ∧ (lowC c3 = 'm' ∨ lowC c3 = 'a') then
      match r with
      | d1 :: d2 :: d3 :: r2 =>
        if d1.isDigit ∧ d2.isDigit ∧ d3.isDigit then
          some ([c1, c2, c3, d1, d2, d3], r2)
        else none
      | _ => none
    else none
  | _ => none

/-- One alternative of the element group of cathode pattern 3:
`Ni(?:ckel)?|Co(?:balt)?|Mn(?:ganese)?|Al(?:uminum)?|Fe(?:rrum)?|P(?:hosphate)?|O(?:xygen)?|S(?:ulfur)?`. -/
def elementTok (s : Str) : Option (Str × Str) :=
  let two (sym : String) (word : String) : Option (Str × Str) :=
    (litCI (chars sym) s).map fun (t, r) =>
      let (t2, r2) := optLit word r
      (t ++ t2, r2)
  match two "ni" "ckel" with
  | some x => some x
  | none =>
    match two "co" "balt" with
    | some x => some x
    | none =>
      match two "mn" "ganese" with
      | some x => some x
      | none =>
        match two "al" "uminum" with
        | some x => some x
        | none =>
          match two "fe" "rrum" with
          | some x => some x
          | none =>
            match two "p" "hosphate" with
            | some x => some x
            | none =>
              match two "o" "xygen" with
              | some x => some x
              | none => two "s" "ulfur"

/-- `(…)+`: one or more element tokens, greedy (each token consumes at least
one character, so the input length bounds the iteration). -/
def many1Elements : ℕ → Str → Option (Str × Str)
  | 0, _ => none
  | fuel + 1, s =>
    match elementTok s with
    | none => none
    | some (t, r) =>
      match many1Elements fuel r with
      | some (t2, r2) => some (t ++ t2, r2)
      | none => some (t, r)

/-- Cathode pattern 3: `Li(?:thium)?(?:Ni(?:ckel)?|…|S(?:ulfur)?)+`. -/
def matchCath3 (s : Str) : Option (Str × Str) :=
  match litCI (chars "li") s with
  | none => none
  | some (t1, r1) =>
    let (t2, r2) := optLit "thium" r1
    (many1Elements (r2.length + 1) r2).map fun (t3, r3) => (t1 ++ t2 ++ t3, r3)

/-- Cathode pattern 4: `LiFePO[\d\.]*|LFP(?!\w)`. -/
def matchCath4 (s : Str) : Option (Str × Str) :=
  match litCI (chars "lifepo") s with
  | some (t, r) =>
    let (d, r2) := digitsDots r
    some (t ++ d, r2)
  | none =>
    match litCI (chars "lfp") s with
    | some (t, r) => if nextNonWord r then some (t, r) else none
    | none => none

/-- Cathode pattern 5: `LiMn[\d\.]*O[\d\.]*|LMO(?!\w)`. -/
def matchCath5 (s : Str) : Option (Str × Str) :=
  let alt1 :=
    match litCI (chars "limn") s with
    | none => none
    | some (t, r) =>
      let (d1, r2) := digitsDots r
      match r2 with
      | c :: r3 =>
        if lowC c = 'o' then
          let (d2, r4) := digitsDots r3
          some (t ++ d1 ++ c :: d2, r4)
        else none
      | [] => none
  match alt1 with
  | some x => some x
  | none =>
    match litCI (chars "lmo") s with
    | some (t, r) => if nextNonWord r then some (t, r) else none
    | none => none

/-- Cathode pattern 6: `L[A-Z]{2,5}O|Sample\s+[A-Z]` (with `re.IGNORECASE`
the class `[A-Z]` matches any ASCII letter; `{2,5}` is greedy and backtracks
down to 2 to leave the final `O`). -/
def matchCath6 (s : Str) : Option (Str × Str) :=
  let isAl (c : Char) : Bool := c.isAlpha
  let alt1 :=
    match s with
    | c :: r =>
      if lowC c = 'l' then
        let tryK (k : ℕ) : Option (Str × Str) :=
          let letters := (r.take k)
          if letters.length = k ∧ letters.all isAl then
            match r.drop k with
            | o :: r2 => if lowC o = 'o' then some (c :: letters ++ [o], r2) else none
            | [] => none
          else none
        match tryK 5 with
        | some x => some x
        | none =>
          match tryK 4 with
          | some x => some x
          | none =>
            match tryK 3 with
            | some x => some x
            | none => tryK 2
      else none
    | [] => none
  match alt1 with
  | some x => some x
  | none =>
    match litCI (chars "sample") s with
    | none => none
    | some (t, r) =>
      match ws1 r with
      | none => none
      | some (sp, r2) =>
        match r2 with
        | c :: r3 => if isAl c then some (t ++ sp ++ [c], r3) else none
        | [] => none

/-- Anode pattern 1: `graph(?:ite|ene)|carbon|mesocarbon\s+microbeads|MCMB`. -/
def matchAnod1 (s : Str) : Option (Str × Str) :=
  let alt1 :=
    match litCI (chars "graph") s with
    | none => none
    | some (t, r) =>
      match (litCI (chars "ite") r).orElse fun _ => litCI (chars "ene") r with
      | some (t2, r2) => some (t ++ t2, r2)
      | none => none
  match alt1 with
  | some x => some x
  | none =>
    match litCI (chars "carbon") s with
    | some x => some x
    | none =>
      let alt3 :=
        match litCI (chars "mesocarbon") s with
        | none => none
        | some (t, r) =>
          match ws1 r with
          | none => none
          | some (sp, r2) =>
            (litCI (chars "microbeads") r2).map fun (t2, r3) => (t ++ sp ++ t2, r3)
      match alt3 with
      | some x => some x
      | none => litCI (chars "mcmb") s

/-- Anode pattern 2:
`Si(?:licon)?(?:/|-|\s+and\s+|\+)C(?:arbon)?|Si(?:licon)?-C(?:arbon)?\s+composite`. -/
def matchAnod2 (s : Str) : Option (Str × Str) :=
  let siHead : Option (Str × Str) :=
    (litCI (chars "si") s).map fun (t, r) =>
      let (t2, r2) := optLit "licon" r
      (t ++ t2, r2)
  let alt1 :=
    match siHead with
    | none => none
    | some (th, r1) =>
      let sep : Option (Str × Str) :=
        match r1 with
        | '/' :: r => some (['/'], r)
        | '-' :: r => some (['-'], r)
        | '+' :: r => some (['+'], r)
        | _ =>
          match ws1 r1 with
          | none => none
          | some (sp1, ra) =>
            match litCI (chars "and") ra with
            | none => none
            | some (ta, rb) =>
              (ws1 rb).map fun (sp2, rc) => (sp1 ++ ta ++ sp2, rc)
      match sep with
      | none => none
      | some (ts, r2) =>
        match r2 with
        | c :: r3 =>
          if lowC c = 'c' then
            let (t2, r4) := optLit "arbon" r3
            some (th ++ ts ++ c :: t2, r4)
          else none
        | [] => none
  match alt1 with
  | some x => some x
  | none =>
    match siHead with
    | none => none
    | some (th, r1) =>
      match r1 with
      | '-' :: r2 =>
        match r2 with
        | c :: r3 =>
          if lowC c = 'c' then
            let (t2, r4) := optLit "arbon" r3
            match ws1 r4 with
            | none => none
            | some (sp, r5) =>
              (litCI (chars "composite") r5).map fun (t3, r6) =>
                (th ++ '-' :: c :: t2 ++ sp ++ t3, r6)
          else none
        | [] => none
      | _ => none

/-- Anode pattern 3: `li(?:thium)?\s+metal`. -/
def matchAnod3 (s : Str) : Option (Str × Str) :=
  match litCI (chars "li") s with
  | none => none
  | some (t1, r1) =>
    let (t2, r2) := optLit "thium" r1
    match ws1 r2 with
    | none => none
    | some (sp, r3) =>
      (litCI (chars "metal") r3).map fun (t3, r4) => (t1 ++ t2 ++ sp ++ t3, r4)

/-- Anode pattern 4: `Li[\d\.]+Ti[\d\.]+O[\d\.]+|LTO(?!\w)`. -/
def matchAnod4 (s : Str) : Option (Str × Str) :=
  let dd1 (u : Str) : Option (Str × Str) :=
    let (d, r) := digitsDots u
    if d.isEmpty then none else some (d, r)
  let alt1 :=
    match litCI (chars "li") s with
    | none => none
    | some (t1, r1) =>
      match dd1 r1 with
      | none => none
      | some (d1, r2) =>
        match litCI (chars "ti") r2 with
        | none => none
        | some (t2, r3) =>
          match dd1 r3 with
          | none => none
          | some (d2, r4) =>
            match r4 with
            | c :: r5 =>
              if lowC c = 'o' then
                match dd1 r5 with
                | none => none
                | some (d3, r6) => some (t1 ++ d1 ++ t2 ++ d2 ++ c :: d3, r6)
              else none
            | [] => none
  match alt1 with
  | some x => some x
  | none =>
    match litCI (chars "lto") s with
    | some (t, r) => if nextNonWord r then some (t, r) else none
    | none => none

/-- The cathode pattern list, in source order. -/
def cathodePatterns : List (Str → Option (Str × Str)) :=
  [matchCath1, matchCath2, matchCath3, matchCath4, matchCath5, matchCath6]

/-- The anode pattern list, in source order. -/
def anodePatterns : List (Str → Option (Str × Str)) :=
  [matchAnod1, matchAnod2, matchAnod3, matchAnod4]

/-- First pattern of a list with a match; the match text, stripped. -/
def firstPatternMatch (ps : List (Str → Option (Str × Str))) (s : Str) : Option Str :=
  match ps with
  | [] => none
  | m :: ms =>
    match searchPat m s with
    | some (g, _) => some (pyStrip g)
    | none => firstPatternMatch ms s

/-- `BatteryEntityExtractor.identify_material` (src/dual_model.py:317). -/
def identify_material (s : Str) (material_type : String) : Option Str :=
  if material_type = "cathode" then firstPatternMatch cathodePatterns s
  else if material_type = "anode" then firstPatternMatch anodePatterns s
  else none

/-- Binder pattern 1: `(?:P|poly)(?:VDF|vinylidene\s+fluoride)` (each head
alternative is retried with the full tail, as the engine backtracks). -/
def matchBind1 (s : Str) : Option (Str × Str) :=
  let tail (u : Str) : Option (Str × Str) :=
    match litCI (chars "vdf") u with
    | some x => some x
    | none =>
      match litCI (chars "vinylidene") u with
      | none => none
      | some (t, r) =>
        match ws1 r with
        | none => none
        | some (sp, r2) =>
          (litCI (chars "fluoride") r2).map fun (t2, r3) => (t ++ sp ++ t2, r3)
  let withHead (h : String) : Option (Str × Str) :=
    (litCI (chars h) s).bind fun (t1, r1) =>
      (tail r1).map fun (t2, r2) => (t1 ++ t2, r2)
  match withHead "p" with
  | some x => some x
  | none => withHead "poly"

/-- Binder pattern 2: `(?:C|carboxy)(?:MC|methyl\s+cellulose)`. -/
def matchBind2 (s : Str) : Option (Str × Str) :=
  let tail (u : Str) : Option (Str × Str) :=
    match litCI (chars "mc") u with
    | some x => some x
    | none =>
      match litCI (chars "methyl") u with
      | none => none
      | some (t, r) =>
        match ws1 r with
        | none => none
        | some (sp, r2) =>
          (litCI (chars "cellulose") r2).map fun (t2, r3) => (t ++ sp ++ t2, r3)
  let withHead (h : String) : Option (Str × Str) :=
    (litCI (chars h) s).bind fun (t1, r1) =>
      (tail r1).map fun (t2, r2) => (t1 ++ t2, r2)
  match withHead "c" with
  | some x => some x
  | none => withHead "carboxy"

/-- Binder pattern 3: `(?:S|styrene)(?:BR|butadiene\s+rubber)`. -/
def matchBind3 (s : Str) : Option (Str × Str) :=
  let tail (u : Str) : Option (Str × Str) :=
    match litCI (chars "br") u with
    | some x => some x
    | none =>
      match litCI (chars "butadiene") u with
      | none => none
      | some (t, r) =>
        match ws1 r with
        | none => none
        | some (sp, r2) =>
          (litCI (chars "rubber") r2).map fun (t2, r3) => (t ++ sp ++ t2, r3)
  let withHead (h : String) : Option (Str × Str) :=
    (litCI (chars h) s).bind fun (t1, r1) =>
      (tail r1).map fun (t2, r2) => (t1 ++ t2, r2)
  match withHead "s" with
  | some x => some x
  | none => withHead "styrene"

/-- Binder pattern 4: `(?:PAA|poly\s*acrylic\s+acid)`. -/
def matchBind4 (s : Str) : Option (Str × Str) :=
  match litCI (chars "paa") s with
  | some x => some x
  | none =>
    match litCI (chars "poly") s with
    | none => none
    | some (t1, r1) =>
      let (sp1, r2) := spanP isWS r1
      match litCI (chars "acrylic") r2 with
      | none => none
      | some (t2, r3) =>
        match ws1 r3 with
        | none => none
        | some (sp2, r4) =>
          (litCI (chars "acid") r4).map fun (t3, r5) =>
            (t1 ++ sp1 ++ t2 ++ sp2 ++ t3, r5)

/-- Binder pattern 5: `(?:PTFE|polytetrafluoroethylene)`. -/
def matchBind5 (s : Str) : Option (Str × Str) :=
  match litCI (chars "ptfe") s with
  | some x => some x
  | none => litCI (chars "polytetrafluoroethylene") s

/-- The binder pattern list, in source order. -/
def binderPatterns : List (Str → Option (Str × Str)) :=
  [matchBind1, matchBind2, matchBind3, matchBind4, matchBind5]

/-- `BatteryEntityExtractor.identify_binder` (src/dual_model.py:329). -/
def identify_binder (s : Str) : Option Str := firstPatternMatch binderPatterns s

/-! ### `standardize_json_data` (src/dual_model.py:337) -/

/-- The sentinel string. -/
def naStr : Str := chars "N/A"

/-- The declared `ExperimentRecord` field names (the schema of the extraction
prompt, src/dual_model.py:753-769). -/
def experimentRecordFields : List Str :=
  [chars "DOI", chars "Battery Model", chars "DC Capacity (mAh/g)",
   chars "Lower Voltage Limit (V)", chars "Upper Voltage Limit (V)",
   chars "Cathode Material", chars "Anode Material", chars "Temperature (°C)",
   chars "Charge Rate (C)", chars "Discharge Rate (C)",
   chars "Capacity Retention (%)", chars "Cycle Count", chars "Binder",
   chars "Manufacturing Process"]

def rawKey : Str := chars "raw_text"
def tempKey : Str := chars "Temperature (°C)"
def lowKey : Str := chars "Lower Voltage Limit (V)"
def upKey : Str := chars "Upper Voltage Limit (V)"
def chKey : Str := chars "Charge Rate (C)"
def dchKey : Str := chars "Discharge Rate (C)"
def capKey : Str := chars "DC Capacity (mAh/g)"
def retKey : Str := chars "Capacity Retention (%)"
def cycKey : Str := chars "Cycle Count"
def cathKey : Str := chars "Cathode Material"
def anodKey : Str := chars "Anode Material"
def bindKey : Str := chars "Binder"

/-- Temperature standardization (src/dual_model.py:347-357). -/
def tempStep (t : Str) (item : Rec) : Rec :=
  match getV item tempKey with
  | some (.str v) =>
    if v ≠ naStr then
      match extract_temperature v with
      | some q => setV item tempKey (.num q)
      | none =>
        if ¬ t.isEmpty then
          match extract_temperature t with
          | some q => setV item tempKey (.num q)
          | none => item
        else item
    else item
  | some _ => item
  | none => item

/-- The `voltage_text` buffer (src/dual_model.py:362-366). -/
def voltageText (item : Rec) : Str :=
  (match getV item lowKey with
   | some v => if v.truthy then pyStr v ++ [' '] else []
   | none => []) ++
  (match getV item upKey with
   | some v => if v.truthy then pyStr v ++ [' '] else []
   | none => [])

/-- The unguarded voltage assignment of the full-text branch
(src/dual_model.py:370-374). -/
def voltAssign (lu : Option ℚ × Option ℚ) (item : Rec) : Rec :=
  let item1 := match lu.1 with
    | some q => setV item lowKey (.num q)
    | none => item
  match lu.2 with
  | some q => setV item1 upKey (.num q)
  | none => item1

/-- The key-guarded voltage assignment of the else branch
(src/dual_model.py:377-381). -/
def voltAssignGuarded (lu : Option ℚ × Option ℚ) (item : Rec) : Rec :=
  let item1 := match lu.1 with
    | some q => if hasKeyR item lowKey then setV item lowKey (.num q) else item
    | none => item
  match lu.2 with
  | some q => if hasKeyR item1 upKey then setV item1 upKey (.num q) else item1
  | none => item1

/-- Voltage-limits standardization (src/dual_model.py:359-381).  Note the
source compares `voltage_text.strip()` — which never ends in a space — with
the literal `"N/A N/A "` (trailing space), so that disjunct is never true. -/
def voltStep (t : Str) (item : Rec) : Rec :=
  if hasKeyR item lowKey ∨ hasKeyR item upKey then
    let vt := voltageText item
    if ¬ t.isEmpty ∧ (vt.isEmpty ∨ pyStrip vt = chars "N/A N/A ") then
      voltAssign (extract_voltage_limits t) item
    else voltAssignGuarded (extract_voltage_limits vt) item
  else item

/-- The `rate_text` buffer (src/dual_model.py:386-390); note there is no
trailing space after the discharge value. -/
def rateText (item : Rec) : Str :=
  (match getV item chKey with
   | some v => if v.truthy then chars "charge: " ++ pyStr v ++ [' '] else []
   | none => []) ++
  (match getV item dchKey with
   | some v => if v.truthy then chars "discharge: " ++ pyStr v else []
   | none => [])

/-- The asymmetric-rate search of the else branch (src/dual_model.py:401):
`(\d+\.?\d*)\s*[Cc]\s*[∕-]\s*(\d+\.?\d*)\s*[Cc]` (no flags, no rate
suffix). -/
def matchAsymPlain (s : Str) : Option (Str × Str) :=
  match lexNum s with
  | none => none
  | some (n1, r1) =>
    let (_, r2) := spanP isWS r1
    match r2 with
    | c1 :: r3 =>
      if c1 = 'C' ∨ c1 = 'c' then
        let (_, r4) := spanP isWS r3
        match r4 with
        | c2 :: r5 =>
          if c2 = '/' ∨ c2 = '-' then
            let (_, r6) := spanP isWS r5
            match lexNum r6 with
            | none => none
            | some (n2, r7) =>
              let (_, r8) := spanP isWS r7
              match r8 with
              | c3 :: _ => if c3 = 'C' ∨ c3 = 'c' then some (n1, n2) else none
              | [] => none
          else none
        | [] => none
      else none
    | [] => none

/-- `re.search(r'(\d+\.?\d*)', v)` (first numeral anywhere). -/
def firstNum (s : Str) : Option Str := (searchPat lexNum s).map fun x => x.1

/-- The key-guarded crates assignment of the full-text branch
(src/dual_model.py:394-398). -/
def cratesAssign (cd : Option ℚ × Option ℚ) (item : Rec) : Rec :=
  let item1 := match cd.1 with
    | some q => if hasKeyR item chKey then setV item chKey (.num q) else item
    | none => item
  match cd.2 with
  | some q => if hasKeyR item1 dchKey then setV item1 dchKey (.num q) else item1
  | none => item1

/-- The `1C/2C`-format fix of the else branch (src/dual_model.py:400-406). -/
def asymFix (rt : Str) (item : Rec) : Rec :=
  match searchPat matchAsymPlain rt with
  | some (g1, g2) =>
    let i1 := if hasKeyR item chKey then setV item chKey (.num (pyFloat g1)) else item
    if hasKeyR i1 dchKey then setV i1 dchKey (.num (pyFloat g2)) else i1
  | none => item

/-- The standard-C-rate string fix for one rate key
(src/dual_model.py:408-419). -/
def strRateFix (key : Str) (item : Rec) : Rec :=
  match getV item key with
  | some (.str v) =>
    if v ≠ naStr then
      match firstNum v with
      | some g => setV item key (.num (pyFloat g))
      | none => item
    else item
  | some _ => item
  | none => item

/-- Charge/discharge-rate standardization (src/dual_model.py:383-419);
`extract_crates` can raise, hence the `Except`. -/
def rateStep (t : Str) (item : Rec) : Except Unit Rec :=
  if hasKeyR item chKey ∨ hasKeyR item dchKey then
    let rt := rateText item
    if ¬ t.isEmpty ∧ (rt.isEmpty ∨ containsSub naStr rt) then
      (extract_crates t).map fun cd => cratesAssign cd item
    else .ok (strRateFix dchKey (strRateFix chKey (asymFix rt item)))
  else .ok item

/-- Discharge-capacity standardization (src/dual_model.py:421-431). -/
def capStep (t : Str) (item : Rec) : Rec :=
  match getV item capKey with
  | some (.str v) =>
    if v ≠ naStr then
      match extract_capacity v with
      | some q => setV item capKey (.num q)
      | none =>
        if ¬ t.isEmpty then
          match extract_capacity t with
          | some q => setV item capKey (.num q)
          | none => item
        else item
    else item
  | some _ => item
  | none => item

/-- Capacity-retention standardization (src/dual_model.py:433-443). -/
def retStep (t : Str) (item : Rec) : Rec :=
  match getV item retKey with
  | some (.str v) =>
    if v ≠ naStr then
      match extract_capacity_retention v with
      | some q => setV item retKey (.num q)
      | none =>
        if ¬ t.isEmpty then
          match extract_capacity_retention t with
          | some q => setV item retKey (.num q)
          | none => item
        else item
    else item
  | some _ => item
  | none => item

/-- Cycle-count standardization (src/dual_model.py:445-455); the integer is
stored as a number. -/
def cycStep (t : Str) (item : Rec) : Rec :=
  match getV item cycKey with
  | some (.str v) =>
    if v ≠ naStr then
      match extract_cycle_count v with
      | some n => setV item cycKey (.num n)
      | none =>
        if ¬ t.isEmpty then
          match extract_cycle_count t with
          | some n => setV item cycKey (.num n)
          | none => item
        else item
    else item
  | some _ => item
  | none => item

/-- A material/binder identification step (src/dual_model.py:457-474):
run when the field equals the sentinel or is falsy, and the full text is
nonempty. -/
def materialStep (key : Str) (ident : Str → Option Str) (t : Str) (item : Rec) : Rec :=
  match getV item key with
  | some v =>
    if (v = .str naStr ∨ ¬ v.truthy) ∧ ¬ t.isEmpty then
      match ident t with
      | some m => setV item key (.str m)
      | none => item
    else item
  | none => item

/-- One item of `standardize_json_data`'s loop: attach `raw_text`, run each
family's standardization, strip `raw_text`. -/
def stdItem (t : Str) (item0 : Rec) : Except Unit Rec :=
  let item1 := if ¬ t.isEmpty then setV item0 rawKey (.str t) else item0
  let item2 := tempStep t item1
  let item3 := voltStep t item2
  (rateStep t item3).map fun item4 =>
    let item5 := capStep t item4
    let item6 := retStep t item5
    let item7 := cycStep t item6
    let item8 := materialStep cathKey (fun u => identify_material u "cathode") t item7
    let item9 := materialStep anodKey (fun u => identify_material u "anode") t item8
    let item10 := materialStep bindKey identify_binder t item9
    delV item10 rawKey

/-- `BatteryEntityExtractor.standardize_json_data` (src/dual_model.py:337):
standardize each record in order against the full text (an uncaught
exception in any item aborts the call). -/
def standardize_json_data (json_data : List Rec) (full_text : Str) :
    Except Unit (List Rec) :=
  json_data.mapM (stdItem full_text)

/-! ### `extract_abstract` (src/dual_model.py:574) -/

/-- A case-insensitive literal in which a `.` of the pattern is the regex
wildcard (the end keywords `1.` and `i.` are interpolated unescaped into the
pattern, so their dot matches any character except a newline). -/
def litCIDot : Str → Str → Option (Str × Str)
  | [], s => some ([], s)
  | _ :: _, [] => none
  | p :: ps, c :: cs =>
    if (if p = '.' then c ≠ '\n' else lowC c = p) then
      (litCIDot ps cs).map fun (t, r) => (c :: t, r)
    else none

/-- The start marker `{keyword}[\s]*[:]?` (compiled per keyword with
`re.IGNORECASE`); the payload is the rest after `match.end()`. -/
def abstractKeywordTok (kw : String) (s : Str) : Option (Str × Str) :=
  (litCI (chars kw) s).map fun (t, r) =>
    let (sp, r2) := spanP isWS r
    match r2 with
    | ':' :: r3 => (t ++ sp ++ [':'], r3)
    | _ => (t ++ sp, r2)

/-- The end marker `\n\s*{keyword}[\s]*[:]?`. -/
def matchEndKw (kw : String) (s : Str) : Option (Str × Str) :=
  match s with
  | '\n' :: r =>
    let (sp, r2) := spanP isWS r
    match litCIDot (chars kw) r2 with
    | none => none
    | some (t, r3) =>
      let (sp2, r4) := spanP isWS r3
      match r4 with
      | ':' :: r5 => some ('\n' :: sp ++ t ++ sp2 ++ [':'], r5)
      | _ => some ('\n' :: sp ++ t ++ sp2, r4)
  | _ => none

/-- The scan for the end of the abstract (src/dual_model.py:600-607): the
first end keyword, in list order, with a match in the remaining text gives
`match.start()`; otherwise the abstract runs to the end. -/
def abstractEndScan (rest : Str) : List String → ℕ
  | [] => rest.length
  | kw :: kws =>
    match searchIdx (matchEndKw kw) rest with
    | some (i, _) => i
    | none => abstractEndScan rest kws

/-- The tail of `extract_abstract` once the start of the candidate abstract
is fixed: find the end keyword, slice, strip, truncate to 2000 characters. -/
def abstractFrom (rest : Str) : Str :=
  let endPos := abstractEndScan rest ["introduction", "keywords", "1.", "i.", "experimental"]
  let abstract := pyStrip (rest.take endPos)
  if abstract.length > 2000 then abstract.take 2000 else abstract

/-- The start-marker loop of `extract_abstract` (src/dual_model.py:588-594):
the abstract keywords are tried in list order and the first keyword with a
match anywhere wins (not the keyword occurring earliest in the text); the
payload is the text after the marker. -/
def abstractStartScan (text : Str) : List String → Option Str
  | [] => none
  | kw :: kws =>
    match searchPat (abstractKeywordTok kw) text with
    | some (_, rest) => some rest
    | none => abstractStartScan text kws

/-- `extract_abstract` (src/dual_model.py:574): keyword-priority start scan
with a 1000-character prefix fallback. -/
def extract_abstract (text : Str) : Str :=
  match abstractStartScan text ["abstract", "summary", "highlights", "graphical abstract"] with
  | some rest => abstractFrom rest
  | none => text.take 1000

/-! ### `call_model_safely` and `process_pdf` (src/dual_model.py:620, 666) -/

/-- A chat-completion response as far as the pipeline inspects it: the
choices' message contents and the optional usage counters. -/
structure ModelResponse where
  choices : List Str
  usage : Option (ℕ × ℕ)
deriving DecidableEq

/-- One attempt against an endpoint: `client.chat.completions.create` either
raises or returns a response after some duration. -/
inductive AttemptOutcome : Type where
  | raise
  | respond (resp : ModelResponse) (duration : ℚ)

/-- The retry loop of `call_model_safely`, indexed by the attempts already
made; returns (result, duration, attempts made). -/
def callGo (f : ℕ → AttemptOutcome) : ℕ → ℕ → Option ModelResponse × ℚ × ℕ
  | 0, i => (none, 0, i)
  | rem + 1, i =>
    match f i with
    | .raise => callGo f rem (i + 1)
    | .respond resp dur =>
      if resp.choices.length = 0 then callGo f rem (i + 1)
      else (some resp, dur, i + 1)

/-- `call_model_safely` (src/dual_model.py:620): up to `max_retries`
attempts; an exception or a response without choices is retried; exhaustion
returns `(None, 0)`.  The third component counts the attempts made (an
observer added for the claims, not data the source returns). -/
def call_model_safely (f : ℕ → AttemptOutcome) (max_retries : ℕ) :
    Option ModelResponse × ℚ × ℕ :=
  callGo f max_retries 0

/-- The environment of one `process_pdf` call: reader results (each reader
catches its own exceptions and yields `None` on failure), the behavior of
each endpoint per attempt, the JSON interpretation of the extraction
response (fenced-block location plus `json.loads`, abstracted as the claims
abstract it: any result or a parse exception), and whether writing the
output file succeeds. -/
structure PdfEnv : Type where
  pymupdfText : Option Str
  pypdf2Text : Option Str
  classifyAttempt : ℕ → AttemptOutcome
  extractAttempt : ℕ → AttemptOutcome
  parseRecords : Str → Except Unit (List Rec)
  writeOk : Bool

/-- The per-document counters `process_pdf` touches, plus two observers
(calls made per endpoint) and the records written. -/
structure ProcRes : Type where
  processed_files : ℕ
  battery_related_files : ℕ
  successfully_extracted_files : ℕ
  first_model_errors : ℕ
  second_model_errors : ℕ
  classify_calls : ℕ
  extraction_calls : ℕ
  saved_records : Option (List Rec)
deriving DecidableEq

/-- The all-zero counter state. -/
def ProcRes.zero : ProcRes := ⟨0, 0, 0, 0, 0, 0, 0, none⟩

/-- The Python exceptions distinguished by the handlers of `process_pdf`:
`json.JSONDecodeError` (caught by the inner handler) and everything else
(caught only by the outer handler). -/
inductive PyErr : Type where
  | jsonDecode
  | other

/-- `pdf_text` after the reader fallback (src/dual_model.py:675-680). -/
def resolvedPdfText (env : PdfEnv) : Option Str :=
  match env.pymupdfText with
  | none => env.pypdf2Text
  | some t => if (pyStrip t).isEmpty then env.pypdf2Text else some t

/-- The classifier verdict test (src/dual_model.py:729-732):
`"no" in response.choices[0].message.content.strip().lower()`. -/
def verdictSaysNo (content : Str) : Bool :=
  containsSub (chars "no") (lowerStr (pyStrip content))

/-- `process_pdf` (src/dual_model.py:666) over an environment.  The body is
written exactly with the source's handler structure: the inner
`try/except json.JSONDecodeError` around parse + standardize + write, and
the outer `try/except Exception`; an uncaught exception would surface as
`Except.error`.  Every branch accounts `processed_files` exactly as the
source's early returns and the final increment do. -/
def process_pdf (env : PdfEnv) : Except PyErr ProcRes :=
  let flow : Except (ProcRes × PyErr) ProcRes :=
    match resolvedPdfText env with
    | none => .ok { ProcRes.zero with processed_files := 1 }
    | some t =>
      if (pyStrip t).isEmpty then .ok { ProcRes.zero with processed_files := 1 }
      else
        let _abstractText := extract_abstract t
        let c := call_model_safely env.classifyAttempt 3
        let s1 : ProcRes := { ProcRes.zero with classify_calls := c.2.2 }
        match c.1 with
        | none =>
          .ok { s1 with first_model_errors := 1, processed_files := 1 }
        | some cresp =>
          if verdictSaysNo (cresp.choices.headD []) then
            .ok { s1 with processed_files := 1 }
          else
            let s2 : ProcRes := { s1 with battery_related_files := 1 }
            let e := call_model_safely env.extractAttempt 3
            let s3 : ProcRes := { s2 with extraction_calls := e.2.2 }
            match e.1 with
            | none =>
              .ok { s3 with second_model_errors := 1, processed_files := 1 }
            | some eresp =>
              let content := eresp.choices.headD []
              let innerRes : Except (ProcRes × PyErr) ProcRes :=
                match env.parseRecords content with
                | .error _ => .error (s3, .jsonDecode)
                | .ok json_data =>
                  match standardize_json_data json_data t with
                  | .error _ => .error (s3, .other)
                  | .ok std =>
                    if env.writeOk then
                      .ok { s3 with successfully_extracted_files := 1,
                                    saved_records := some std }
                    else .error (s3, .other)
              match innerRes with
              | .ok r => .ok { r with processed_files := r.processed_files + 1 }
              | .error (r, .jsonDecode) =>
                .ok { r with second_model_errors := r.second_model_errors + 1,
                             processed_files := r.processed_files + 1 }
              | .error e => .error e
  match flow with
  | .ok r => .ok r
  | .error (r, _) =>
    .ok { r with first_model_errors := r.first_model_errors + 1,
                 processed_files := r.processed_files + 1 }

/-! ### Normalized values and scan-safety predicates (for the idempotence
analysis of `standardize_json_data`) -/

/-- A normalized field value: a number or the sentinel string. -/
def normValB : JVal → Bool
  | .num _ => true
  | .str s => s = naStr
  | _ => false

/-- A record is normalized when every stored value is a number or the
sentinel. -/
def normRec (r : Rec) : Bool := r.all fun p => normValB p.2

/-- The characters a re-stringified number can contain. -/
def numChar (c : Char) : Bool := c.isDigit || c = '.' || c = '-' || c = '/'

/-- A character that can start none of the voltage patterns' mandatory
word alternatives (`v`, `volts`, `voltage`, `lower`∕`low`, `upper`, `high`,
`cut…`∕`limiting`). -/
def voltFree (c : Char) : Bool :=
  !(lowC c = 'v' || lowC c = 'l' || lowC c = 'u' || lowC c = 'h' || lowC c = 'c')

/-- One step of the `digit-then-[Cc]` scan: the state records whether the
last relevant character was a digit or a dot (whitespace preserves the
state). -/
def ccStep (f : Bool) (c : Char) : Bool :=
  if c = 'C' ∨ c = 'c' then false
  else if c.isDigit ∨ c = '.' then true
  else if isWS c then f
  else false

/-- `ccSafe f s` holds when `s` contains no `C`∕`c` preceded (modulo
whitespace) by a digit or dot — the shape every `matchAsymPlain` match
requires. -/
def ccSafe : Bool → Str → Bool
  | _, [] => true
  | f, c :: cs => if (c = 'C' ∨ c = 'c') ∧ f = true then false else ccSafe (ccStep f c) cs

/-! ### Association-list lemmas -/

theorem getV_setV_self (r : Rec) (k : Str) (v : JVal) : getV (setV r k v) k = some v := by
  induction r with
  | nil => simp [setV, getV]
  | cons p t ih =>
    by_cases h : p.1 = k
    · simp [setV, getV, h]
    · simp [setV, getV, h, ih]

theorem getV_setV_ne (r : Rec) (k k2 : Str) (v : JVal) (h : k ≠ k2) :
    getV (setV r k v) k2 = getV r k2 := by
  induction r with
  | nil => simp [setV, getV, h]
  | cons p t ih =>
    by_cases h2 : p.1 = k
    · simp [setV, getV, h2, h]
    · simp [setV, getV, h2, ih]

theorem setV_same (r : Rec) (k : Str) (v : JVal) (h : getV r k = some v) :
    setV r k v = r := by
  induction r with
  | nil => simp [getV] at h
  | cons p t ih =>
    obtain ⟨pk, pv⟩ := p
    by_cases h2 : pk = k
    · simp [getV, h2] at h
      simp [setV, h2, h]
    · simp [getV, h2] at h
      simp [setV, h2, ih h]

theorem getV_delV_ne (r : Rec) (k k2 : Str) (h : k ≠ k2) :
    getV (delV r k) k2 = getV r k2 := by
  induction r with
  | nil => simp [delV, getV]
  | cons p t ih =>
    obtain ⟨pk, pv⟩ := p
    by_cases h2 : pk = k
    · have h3 : pk ≠ k2 := by rw [h2]; exact h
      simp [delV, getV, h2, h3, ih, h]
    · by_cases h3 : pk = k2
      · subst h3
        simp [delV, getV, h2, ih]
      · simp [delV, getV, h2, h3, ih]

theorem getV_delV_self (r : Rec) (k : Str) : getV (delV r k) k = none := by
  induction r with
  | nil => simp [delV, getV]
  | cons p t ih =>
    obtain ⟨pk, pv⟩ := p
    by_cases h2 : pk = k <;> simp [delV, getV, h2, ih]

theorem delV_of_absent (r : Rec) (k : Str) (h : getV r k = none) : delV r k = r := by
  induction r with
  | nil => simp [delV]
  | cons p t ih =>
    obtain ⟨pk, pv⟩ := p
    by_cases h2 : pk = k
    · simp [getV, h2] at h
    · simp [getV, h2] at h
      simp [delV, h2, ih h]

theorem setV_absent_append (r : Rec) (k : Str) (v : JVal) (h : getV r k = none) :
    setV r k v = r ++ [(k, v)] := by
  induction r with
  | nil => simp [setV]
  | cons p t ih =>
    obtain ⟨pk, pv⟩ := p
    by_cases h2 : pk = k
    · simp [getV, h2] at h
    · simp [getV, h2] at h
      simp [setV, h2, ih h]

theorem delV_append (r r2 : Rec) (k : Str) :
    delV (r ++ r2) k = delV r k ++ delV r2 k := by
  induction r with
  | nil => simp [delV]
  | cons p t ih =>
    obtain ⟨pk, pv⟩ := p
    by_cases h2 : pk = k <;> simp [delV, h2, ih]

theorem delV_setV_absent (r : Rec) (k : Str) (v : JVal) (h : getV r k = none) :
    delV (setV r k v) k = r := by
  rw [setV_absent_append r k v h, delV_append, delV_of_absent r k h]
  simp [delV]

theorem hasKeyR_setV (r : Rec) (k k2 : Str) (v : JVal) (h : hasKeyR r k2) :
    hasKeyR (setV r k v) k2 = true := by
  by_cases hk : k = k2
  · subst hk; simp [hasKeyR, getV_setV_self]
  · simpa [hasKeyR, getV_setV_ne r k k2 v hk] using h

/-! ### Claim C2 (code bug): temperature ranges return the second endpoint -/

/-- C2: the claim says `extract_temperature` maps a range string `"X-Y°C"`
to the mean `(X+Y)/2`.  The code's own pattern list documents `"25-30°C"`
as a range and its range branch is commented `Return average value`, but the
single-value pattern (priority 1) matches the second endpoint `"30°C"`
first, so the function returns `30`, not `27.5`: the code contradicts its
own documentation (a code bug).  The same happens for `"25~30°C"` and
`"25 to 30°C"`. -/
theorem c2_range_temperature_second_endpoint :
    extract_temperature (chars "25-30°C") = some 30 ∧
    extract_temperature (chars "25~30°C") = some 30 ∧
    extract_temperature (chars "25 to 30°C") = some 30 ∧
    (30 : ℚ) ≠ (25 + 30) / 2 := by
  refine ⟨by with_unfolding_all rfl, by with_unfolding_all rfl,
    by with_unfolding_all rfl, by norm_num⟩

/-! ### Claim C1: declared fields and the output records -/

/-- C1 counterexample: `standardize_json_data` never inserts a declared
field that the model-provided record lacks.  On the record `{}` the output
record is `{}` again and the declared field `DOI` is absent, so the claim
"no declared field is ever absent from an output record, even when it was
absent from the model-provided record" is false. -/
theorem c1_counterexample_missing_field :
    standardize_json_data [[]] (chars "") = .ok [[]] ∧
    chars "DOI" ∈ experimentRecordFields ∧
    getV [] (chars "DOI") = none := by
  exact ⟨by with_unfolding_all rfl, by simp [experimentRecordFields], rfl⟩

theorem getV_tempStep_ne (t : Str) (i : Rec) (k : Str) (h : k ≠ tempKey) :
    getV (tempStep t i) k = getV i k := by
  unfold tempStep
  split <;> try rfl
  split <;> try rfl
  split
  · rw [getV_setV_ne _ _ _ _ (fun hh => h hh.symm)]
  · split <;> try rfl
    split
    · rw [getV_setV_ne _ _ _ _ (fun hh => h hh.symm)]
    · rfl

theorem getV_voltAssign_ne (lu : Option ℚ × Option ℚ) (i : Rec) (k : Str)
    (h1 : k ≠ lowKey) (h2 : k ≠ upKey) : getV (voltAssign lu i) k = getV i k := by
  have e1 : ∀ j : Rec, ∀ q, getV (setV j lowKey (.num q)) k = getV j k :=
    fun j q => getV_setV_ne _ _ _ _ (fun hh => h1 hh.symm)
  have e2 : ∀ j : Rec, ∀ q, getV (setV j upKey (.num q)) k = getV j k :=
    fun j q => getV_setV_ne _ _ _ _ (fun hh => h2 hh.symm)
  unfold voltAssign
  obtain ⟨lo, up⟩ := lu
  cases lo <;> cases up <;> simp [e1, e2]

theorem getV_voltAssignGuarded_ne (lu : Option ℚ × Option ℚ) (i : Rec) (k : Str)
    (h1 : k ≠ lowKey) (h2 : k ≠ upKey) :
    getV (voltAssignGuarded lu i) k = getV i k := by
  have e1 : ∀ j : Rec, ∀ q, getV (setV j lowKey (.num q)) k = getV j k :=
    fun j q => getV_setV_ne _ _ _ _ (fun hh => h1 hh.symm)
  have e2 : ∀ j : Rec, ∀ q, getV (setV j upKey (.num q)) k = getV j k :=
    fun j q => getV_setV_ne _ _ _ _ (fun hh => h2 hh.symm)
  unfold voltAssignGuarded
  obtain ⟨lo, up⟩ := lu
  cases lo <;> cases up <;> simp [e1, e2] <;> split_ifs <;> simp [e1, e2]

theorem getV_voltStep_ne (t : Str) (i : Rec) (k : Str) (h1 : k ≠ lowKey)
    (h2 : k ≠ upKey) : getV (voltStep t i) k = getV i k := by
  unfold voltStep
  split <;> try rfl
  dsimp only
  split
  · exact getV_voltAssign_ne _ _ _ h1 h2
  · exact getV_voltAssignGuarded_ne _ _ _ h1 h2

theorem getV_cratesAssign_ne (cd : Option ℚ × Option ℚ) (i : Rec) (k : Str)
    (h1 : k ≠ chKey) (h2 : k ≠ dchKey) : getV (cratesAssign cd i) k = getV i k := by
  have e1 : ∀ j : Rec, ∀ q, getV (setV j chKey (.num q)) k = getV j k :=
    fun j q => getV_setV_ne _ _ _ _ (fun hh => h1 hh.symm)
  have e2 : ∀ j : Rec, ∀ q, getV (setV j dchKey (.num q)) k = getV j k :=
    fun j q => getV_setV_ne _ _ _ _ (fun hh => h2 hh.symm)
  unfold cratesAssign
  obtain ⟨c, d⟩ := cd
  cases c <;> cases d <;> simp [e1, e2] <;> split_ifs <;> simp [e1, e2]

theorem getV_asymFix_ne (rt : Str) (i : Rec) (k : Str) (h1 : k ≠ chKey)
    (h2 : k ≠ dchKey) : getV (asymFix rt i) k = getV i k := by
  have e1 : ∀ j : Rec, ∀ q, getV (setV j chKey (.num q)) k = getV j k :=
    fun j q => getV_setV_ne _ _ _ _ (fun hh => h1 hh.symm)
  have e2 : ∀ j : Rec, ∀ q, getV (setV j dchKey (.num q)) k = getV j k :=
    fun j q => getV_setV_ne _ _ _ _ (fun hh => h2 hh.symm)
  unfold asymFix
  split
  · dsimp only; split_ifs <;> simp [e1, e2]
  · rfl

theorem getV_strRateFix_ne (key : Str) (i : Rec) (k : Str) (h : k ≠ key) :
    getV (strRateFix key i) k = getV i k := by
  have e : ∀ j : Rec, ∀ q, getV (setV j key (.num q)) k = getV j k :=
    fun j q => getV_setV_ne _ _ _ _ (fun hh => h hh.symm)
  unfold strRateFix
  split <;> try rfl
  split <;> try rfl
  split
  · exact e _ _
  · rfl

theorem getV_capStep_ne (t : Str) (i : Rec) (k : Str) (h : k ≠ capKey) :
    getV (capStep t i) k = getV i k := by
  unfold capStep
  split <;> try rfl
  split <;> try rfl
  split
  · rw [getV_setV_ne _ _ _ _ (fun hh => h hh.symm)]
  · split <;> try rfl
    split
    · rw [getV_setV_ne _ _ _ _ (fun hh => h hh.symm)]
    · rfl

theorem getV_retStep_ne (t : Str) (i : Rec) (k : Str) (h : k ≠ retKey) :
    getV (retStep t i) k = getV i k := by
  unfold retStep
  split <;> try rfl
  split <;> try rfl
  split
  · rw [getV_setV_ne _ _ _ _ (fun hh => h hh.symm)]
  · split <;> try rfl
    split
    · rw [getV_setV_ne _ _ _ _ (fun hh => h hh.symm)]
    · rfl

theorem getV_cycStep_ne (t : Str) (i : Rec) (k : Str) (h : k ≠ cycKey) :
    getV (cycStep t i) k = getV i k := by
  unfold cycStep
  split <;> try rfl
  split <;> try rfl
  split
  · rw [getV_setV_ne _ _ _ _ (fun hh => h hh.symm)]
  · split <;> try rfl
    split
    · rw [getV_setV_ne _ _ _ _ (fun hh => h hh.symm)]
    · rfl

theorem getV_materialStep_ne (key : Str) (ident : Str → Option Str) (t : Str)
    (i : Rec) (k : Str) (h : k ≠ key) :
    getV (materialStep key ident t i) k = getV i k := by
  unfold materialStep
  split <;> try rfl
  split <;> try rfl
  split
  · rw [getV_setV_ne _ _ _ _ (fun hh => h hh.symm)]
  · rfl

theorem getV_rateStep_ne (t : Str) (i j : Rec) (k : Str) (hok : rateStep t i = .ok j)
    (h1 : k ≠ chKey) (h2 : k ≠ dchKey) : getV j k = getV i k := by
  unfold rateStep at hok
  split at hok
  · dsimp only at hok
    split at hok
    · match hcr : extract_crates t with
      | .error e => rw [hcr] at hok; simp [Except.map] at hok
      | .ok cd =>
        rw [hcr] at hok
        simp only [Except.map, Except.ok.injEq] at hok
        subst hok
        exact getV_cratesAssign_ne _ _ _ h1 h2
    · simp only [Except.ok.injEq] at hok
      subst hok
      rw [getV_strRateFix_ne _ _ _ h2, getV_strRateFix_ne _ _ _ h1,
        getV_asymFix_ne _ _ _ h1 h2]
  · simp only [Except.ok.injEq] at hok
    subst hok
    rfl

/-! ### Claim C1 (amended): fields present in the input are never dropped -/

theorem hasKeyR_tempStep (t : Str) (i : Rec) (k : Str) (h : hasKeyR i k = true) :
    hasKeyR (tempStep t i) k = true := by
  unfold tempStep
  split <;> try exact h
  split <;> try exact h
  split
  · exact hasKeyR_setV _ _ _ _ h
  · split <;> try exact h
    split
    · exact hasKeyR_setV _ _ _ _ h
    · exact h

theorem hasKeyR_voltAssign (lu : Option ℚ × Option ℚ) (i : Rec) (k : Str)
    (h : hasKeyR i k = true) : hasKeyR (voltAssign lu i) k = true := by
  unfold voltAssign
  obtain ⟨lo, up⟩ := lu
  cases lo <;> cases up <;> simp [hasKeyR_setV, h]

theorem hasKeyR_voltAssignGuarded (lu : Option ℚ × Option ℚ) (i : Rec) (k : Str)
    (h : hasKeyR i k = true) : hasKeyR (voltAssignGuarded lu i) k = true := by
  unfold voltAssignGuarded
  obtain ⟨lo, up⟩ := lu
  cases lo <;> cases up <;> dsimp only <;>
    first
    | (split_ifs <;> simp [hasKeyR_setV, h])
    | simp [hasKeyR_setV, h]

theorem hasKeyR_voltStep (t : Str) (i : Rec) (k : Str) (h : hasKeyR i k = true) :
    hasKeyR (voltStep t i) k = true := by
  unfold voltStep
  split <;> try exact h
  dsimp only
  split
  · exact hasKeyR_voltAssign _ _ _ h
  · exact hasKeyR_voltAssignGuarded _ _ _ h

theorem hasKeyR_cratesAssign (cd : Option ℚ × Option ℚ) (i : Rec) (k : Str)
    (h : hasKeyR i k = true) : hasKeyR (cratesAssign cd i) k = true := by
  unfold cratesAssign
  obtain ⟨c, d⟩ := cd
  cases c <;> cases d <;> dsimp only <;>
    first
    | (split_ifs <;> simp [hasKeyR_setV, h])
    | simp [hasKeyR_setV, h]

theorem hasKeyR_asymFix (rt : Str) (i : Rec) (k : Str) (h : hasKeyR i k = true) :
    hasKeyR (asymFix rt i) k = true := by
  unfold asymFix
  split
  · dsimp only; split_ifs <;> simp [hasKeyR_setV, h]
  · exact h

theorem hasKeyR_strRateFix (key : Str) (i : Rec) (k : Str) (h : hasKeyR i k = true) :
    hasKeyR (strRateFix key i) k = true := by
  unfold strRateFix
  split <;> try exact h
  split <;> try exact h
  split
  · exact hasKeyR_setV _ _ _ _ h
  · exact h

theorem hasKeyR_rateStep (t : Str) (i j : Rec) (k : Str) (hok : rateStep t i = .ok j)
    (h : hasKeyR i k = true) : hasKeyR j k = true := by
  unfold rateStep at hok
  split at hok
  · dsimp only at hok
    split at hok
    · match hcr : extract_crates t with
      | .error e => rw [hcr] at hok; simp [Except.map] at hok
      | .ok cd =>
        rw [hcr] at hok
        simp only [Except.map, Except.ok.injEq] at hok
        subst hok
        exact hasKeyR_cratesAssign _ _ _ h
    · simp only [Except.ok.injEq] at hok
      subst hok
      exact hasKeyR_strRateFix _ _ _ (hasKeyR_strRateFix _ _ _ (hasKeyR_asymFix _ _ _ h))
  · simp only [Except.ok.injEq] at hok
    subst hok
    exact h

theorem hasKeyR_capStep (t : Str) (i : Rec) (k : Str) (h : hasKeyR i k = true) :
    hasKeyR (capStep t i) k = true := by
  unfold capStep
  split <;> try exact h
  split <;> try exact h
  split
  · exact hasKeyR_setV _ _ _ _ h
  · split <;> try exact h
    split
    · exact hasKeyR_setV _ _ _ _ h
    · exact h

theorem hasKeyR_retStep (t : Str) (i : Rec) (k : Str) (h : hasKeyR i k = true) :
    hasKeyR (retStep t i) k = true := by
  unfold retStep
  split <;> try exact h
  split <;> try exact h
  split
  · exact hasKeyR_setV _ _ _ _ h
  · split <;> try exact h
    split
    · exact hasKeyR_setV _ _ _ _ h
    · exact h

theorem hasKeyR_cycStep (t : Str) (i : Rec) (k : Str) (h : hasKeyR i k = true) :
    hasKeyR (cycStep t i) k = true := by
  unfold cycStep
  split <;> try exact h
  split <;> try exact h
  split
  · exact hasKeyR_setV _ _ _ _ h
  · split <;> try exact h
    split
    · exact hasKeyR_setV _ _ _ _ h
    · exact h

theorem hasKeyR_materialStep (key : Str) (ident : Str → Option Str) (t : Str)
    (i : Rec) (k : Str) (h : hasKeyR i k = true) :
    hasKeyR (materialStep key ident t i) k = true := by
  unfold materialStep
  split <;> try exact h
  split <;> try exact h
  split
  · exact hasKeyR_setV _ _ _ _ h
  · exact h

theorem hasKeyR_delV_ne (r : Rec) (k k2 : Str) (h : k ≠ k2) (hk : hasKeyR r k2 = true) :
    hasKeyR (delV r k) k2 = true := by
  simpa [hasKeyR, getV_delV_ne r k k2 h] using hk

/-- Key preservation through one item's standardization. -/
theorem stdItem_preserves_key (t : Str) (i j : Rec) (k : Str)
    (hok : stdItem t i = .ok j) (hraw : k ≠ rawKey) (h : hasKeyR i k = true) :
    hasKeyR j k = true := by
  unfold stdItem at hok
  dsimp only at hok
  set i1 := if ¬ t.isEmpty then setV i rawKey (JVal.str t) else i with hi1
  have h1 : hasKeyR i1 k = true := by
    rw [hi1]; split
    · exact hasKeyR_setV _ _ _ _ h
    · exact h
  have h2 := hasKeyR_tempStep t i1 k h1
  have h3 := hasKeyR_voltStep t (tempStep t i1) k h2
  match hr : rateStep t (voltStep t (tempStep t i1)) with
  | .error e => rw [hr] at hok; simp [Except.map] at hok
  | .ok i4 =>
    rw [hr] at hok
    simp only [Except.map, Except.ok.injEq] at hok
    have h4 := hasKeyR_rateStep _ _ _ k hr h3
    subst hok
    exact hasKeyR_delV_ne _ _ _ (fun hh => hraw hh.symm)
      (hasKeyR_materialStep _ _ _ _ _
        (hasKeyR_materialStep _ _ _ _ _
          (hasKeyR_materialStep _ _ _ _ _
            (hasKeyR_cycStep _ _ _ (hasKeyR_retStep _ _ _ (hasKeyR_capStep _ _ _ h4))))))

/-- `mapM` in `Except` sends the `i`-th input to the `i`-th output. -/
theorem mapM_except_get {α β : Type} (f : α → Except Unit β) :
    ∀ (xs : List α) (out : List β) (i : ℕ) (x : α),
      xs.mapM f = .ok out → xs.get? i = some x →
      ∃ y, out.get? i = some y ∧ f x = .ok y := by
  intro xs
  induction xs with
  | nil => intro out i x _ hx; simp at hx
  | cons a t ih =>
    intro out i x hmap hx
    rw [List.mapM_cons] at hmap
    match hfa : f a with
    | .error e => rw [hfa] at hmap; simp [Bind.bind, Except.bind] at hmap
    | .ok ya =>
      rw [hfa] at hmap
      simp only [Bind.bind, Except.bind] at hmap
      match hft : t.mapM f with
      | .error e => rw [hft] at hmap; simp at hmap
      | .ok yt =>
        rw [hft] at hmap
        simp only [pure, Except.pure, Except.ok.injEq] at hmap
        subst hmap
        match i with
        | 0 =>
          simp only [List.get?] at hx ⊢
          exact ⟨ya, rfl, by rw [← Option.some_inj.mp hx]; exact hfa⟩
        | n + 1 =>
          simp only [List.get?] at hx ⊢
          exact ih yt n x hft hx

/-- C1 (amended): `standardize_json_data` never removes a field — every key
present in an input record (other than the transient `raw_text`) is present
in the corresponding output record.  The original claim's stronger guarantee
— that every declared schema field is present even when absent from the
model-provided record — is false (`c1_counterexample_missing_field`):
reconciliation only rewrites fields the model actually supplied, so schema
completeness relies on the extraction prompt being obeyed. -/
theorem c1_present_fields_preserved (js : List Rec) (t : Str) (out : List Rec)
    (hok : standardize_json_data js t = .ok out) (i : ℕ) (r : Rec) (k : Str)
    (hin : js.get? i = some r) (hraw : k ≠ rawKey) (hk : hasKeyR r k = true) :
    ∃ r2, out.get? i = some r2 ∧ hasKeyR r2 k = true := by
  obtain ⟨r2, hget, hstd⟩ := mapM_except_get (stdItem t) js out i r hok hin
  exact ⟨r2, hget, stdItem_preserves_key t r r2 k hstd hraw hk⟩

/-- Witness for `c1_present_fields_preserved` at a concrete record. -/
theorem c1_witness :
    ∃ r2, ([[(chars "DOI", JVal.str (chars "10.1"))]] : List Rec).get? 0 = some r2 ∧
      hasKeyR r2 (chars "DOI") = true := by
  have hok : standardize_json_data [[(chars "DOI", .str (chars "10.1"))]] (chars "") =
      .ok [[(chars "DOI", .str (chars "10.1"))]] := by with_unfolding_all rfl
  exact c1_present_fields_preserved _ _ _ hok 0 [(chars "DOI", .str (chars "10.1"))]
    (chars "DOI") rfl (by decide) (by rfl)

/-! ### Claim C6: `call_model_safely` retry contract -/

/-- An attempt outcome the retry loop accepts: a response with at least one
choice. -/
def attemptOk (o : AttemptOutcome) : Prop :=
  ∃ resp d, o = .respond resp d ∧ 1 ≤ resp.choices.length

theorem callGo_spec (f : ℕ → AttemptOutcome) :
    ∀ (rem i : ℕ),
      (callGo f rem i).2.2 ≤ i + rem ∧
      ((callGo f rem i).1 = none →
        callGo f rem i = (none, 0, i + rem) ∧
        ∀ j, i ≤ j → j < i + rem → ¬ attemptOk (f j)) ∧
      (∀ resp, (callGo f rem i).1 = some resp →
        1 ≤ resp.choices.length ∧
        ∃ n, i ≤ n ∧ n < i + rem ∧ (callGo f rem i).2.2 = n + 1 ∧
          f n = .respond resp (callGo f rem i).2.1 ∧
          ∀ j, i ≤ j → j < n → ¬ attemptOk (f j)) := by
  intro rem
  induction rem with
  | zero =>
    intro i
    refine ⟨by simp [callGo], fun _ => ⟨by simp [callGo], fun j hj hj2 => by omega⟩, ?_⟩
    intro resp h
    simp [callGo] at h
  | succ m ih =>
    intro i
    match hfi : f i with
    | .raise =>
      have heq : callGo f (m + 1) i = callGo f m (i + 1) := by
        simp [callGo, hfi]
      obtain ⟨ih1, ih2, ih3⟩ := ih (i + 1)
      refine ⟨by rw [heq]; omega, ?_, ?_⟩
      · intro hnone
        rw [heq] at hnone ⊢
        obtain ⟨e1, e2⟩ := ih2 hnone
        refine ⟨by rw [e1]; congr 2; omega, ?_⟩
        intro j hj hj2
        rcases Nat.eq_or_lt_of_le hj with hj3 | hj3
        · subst hj3
          rintro ⟨resp, d, hr, _⟩
          rw [hfi] at hr
          cases hr
        · exact e2 j hj3 (by omega)
      · intro resp h
        rw [heq] at h ⊢
        obtain ⟨hc, n, hn1, hn2, hn3, hn4, hn5⟩ := ih3 resp h
        refine ⟨hc, n, by omega, by omega, hn3, hn4, ?_⟩
        intro j hj hj2
        rcases Nat.eq_or_lt_of_le hj with hj3 | hj3
        · subst hj3
          rintro ⟨resp2, d2, hr, _⟩
          rw [hfi] at hr
          cases hr
        · exact hn5 j hj3 hj2
    | .respond resp0 d0 =>
      by_cases hch : resp0.choices.length = 0
      · have heq : callGo f (m + 1) i = callGo f m (i + 1) := by
          simp [callGo, hfi, hch]
        obtain ⟨ih1, ih2, ih3⟩ := ih (i + 1)
        refine ⟨by rw [heq]; omega, ?_, ?_⟩
        · intro hnone
          rw [heq] at hnone ⊢
          obtain ⟨e1, e2⟩ := ih2 hnone
          refine ⟨by rw [e1]; congr 2; omega, ?_⟩
          intro j hj hj2
          rcases Nat.eq_or_lt_of_le hj with hj3 | hj3
          · subst hj3
            rintro ⟨resp2, d2, hr, hlen⟩
            rw [hfi] at hr
            cases hr
            omega
          · exact e2 j hj3 (by omega)
        · intro resp h
          rw [heq] at h ⊢
          obtain ⟨hc, n, hn1, hn2, hn3, hn4, hn5⟩ := ih3 resp h
          refine ⟨hc, n, by omega, by omega, hn3, hn4, ?_⟩
          intro j hj hj2
          rcases Nat.eq_or_lt_of_le hj with hj3 | hj3
          · subst hj3
            rintro ⟨resp2, d2, hr, hlen⟩
            rw [hfi] at hr
            cases hr
            omega
          · exact hn5 j hj3 hj2
      · have heq : callGo f (m + 1) i = (some resp0, d0, i + 1) := by
          simp [callGo, hfi, hch]
        rw [heq]
        refine ⟨by simp, ?_, ?_⟩
        · intro h; simp at h
        · intro resp h
          simp only [Option.some.injEq] at h
          subst h
          exact ⟨by omega, i, le_refl i, by omega, by simp, by simp [hfi],
            fun j hj hj2 => by omega⟩

/-- C6: the retry contract of `call_model_safely`: it is a total function
(never raises); it makes at most `max_retries` attempts; a response lacking
choices is treated as a retryable failure, not a success (every attempt
before the accepted one fails `attemptOk`); a returned response always has
at least one choice; and exhausting all retries returns the absent result
`(None, 0)` after exactly `max_retries` attempts. -/
theorem c6_call_model_safely_contract (f : ℕ → AttemptOutcome) (max_retries : ℕ) :
    (call_model_safely f max_retries).2.2 ≤ max_retries ∧
    ((call_model_safely f max_retries).1 = none →
      call_model_safely f max_retries = (none, 0, max_retries) ∧
      ∀ j < max_retries, ¬ attemptOk (f j)) ∧
    (∀ resp, (call_model_safely f max_retries).1 = some resp →
      1 ≤ resp.choices.length ∧
      ∃ n < max_retries, (call_model_safely f max_retries).2.2 = n + 1 ∧
        f n = .respond resp (call_model_safely f max_retries).2.1 ∧
        ∀ j < n, ¬ attemptOk (f j)) := by
  obtain ⟨h1, h2, h3⟩ := callGo_spec f max_retries 0
  refine ⟨by simpa [call_model_safely] using h1, ?_, ?_⟩
  · intro hnone
    obtain ⟨e1, e2⟩ := h2 hnone
    exact ⟨by simpa [call_model_safely] using e1,
      fun j hj => e2 j (Nat.zero_le j) (by omega)⟩
  · intro resp h
    obtain ⟨hc, n, _, hn2, hn3, hn4, hn5⟩ := h3 resp h
    exact ⟨hc, n, by omega, hn3, hn4, fun j hj => hn5 j (Nat.zero_le j) hj⟩

/-- Witness for `c6_call_model_safely_contract`: an endpoint that returns an
empty-choice response once and then succeeds. -/
theorem c6_witness :
    1 ≤ (ModelResponse.mk [chars "ok"] none).choices.length ∧
    (call_model_safely
        (fun i => if i = 0 then .respond ⟨[], none⟩ 3 else .respond ⟨[chars "ok"], none⟩ 7)
        3).2.2 ≤ 3 := by
  have h := c6_call_model_safely_contract
    (fun i => if i = 0 then .respond ⟨[], none⟩ 3 else .respond ⟨[chars "ok"], none⟩ 7) 3
  have hres : (call_model_safely
      (fun i => if i = 0 then .respond ⟨[], none⟩ 3 else .respond ⟨[chars "ok"], none⟩ 7)
      3).1 = some ⟨[chars "ok"], none⟩ := by with_unfolding_all rfl
  exact ⟨(h.2.2 _ hres).1, h.1⟩

/-! ### Claim C10: `extract_crates` sets both rates or neither -/

theorem mem_takeWhile (p : Char → Bool) :
    ∀ (s : Str) (c : Char), c ∈ s.takeWhile p → p c = true := by
  intro s
  induction s with
  | nil => intro c h; simp [List.takeWhile] at h
  | cons a t ih =>
    intro c h
    by_cases ha : p a
    · simp only [List.takeWhile, ha] at h
      rcases List.mem_cons.mp h with h1 | h1
      · rw [h1]; exact ha
      · exact ih c h1
    · simp only [List.takeWhile] at h
      rw [Bool.not_eq_true] at ha
      rw [ha] at h
      simp at h

theorem takeWhile_all_append (p : Char → Bool) :
    ∀ (a b : Str), (∀ c ∈ a, p c = true) →
      (a ++ b).takeWhile p = a ++ b.takeWhile p := by
  intro a
  induction a with
  | nil => intro b _; simp
  | cons x t ih =>
    intro b h
    have hx : p x = true := h x (List.mem_cons_self x t)
    simp only [List.cons_append, List.takeWhile, hx]
    show x :: List.takeWhile p (t ++ b) = x :: (t ++ List.takeWhile p b)
    rw [ih b (fun c hc => h c (List.mem_cons_of_mem x hc))]

theorem dropWhile_all_append (p : Char → Bool) :
    ∀ (a b : Str), (∀ c ∈ a, p c = true) →
      (a ++ b).dropWhile p = b.dropWhile p := by
  intro a
  induction a with
  | nil => intro b _; simp
  | cons x t ih =>
    intro b h
    have hx : p x = true := h x (List.mem_cons_self x t)
    simp only [List.cons_append, List.dropWhile, hx]
    exact ih b (fun c hc => h c (List.mem_cons_of_mem x hc))

theorem takeWhile_of_all (p : Char → Bool) (a : Str) (h : ∀ c ∈ a, p c = true) :
    a.takeWhile p = a := by
  have := takeWhile_all_append p a [] h
  simpa using this

theorem dropWhile_of_all (p : Char → Bool) (a : Str) (h : ∀ c ∈ a, p c = true) :
    a.dropWhile p = [] := by
  have := dropWhile_all_append p a [] h
  simpa using this

/-- Every string produced by the numeral lexer parses as a float (so
`_normalize_crate` never yields `None` on a capture). -/
theorem parseFloatQ_of_lexNum (s t r : Str) (h : lexNum s = some (t, r)) :
    (parseFloatQ t).isSome = true := by
  unfold lexNum at h
  dsimp only at h
  split at h
  · cases h
  · rename_i hd
    have hall : ∀ c ∈ s.takeWhile Char.isDigit, Char.isDigit c = true :=
      fun c hc => mem_takeWhile _ s c hc
    split at h
    · -- the remainder starts with a dot: the capture is `d1 ++ '.' :: d2`
      rename_i r2 heq
      simp only [Option.some.injEq, Prod.mk.injEq] at h
      obtain ⟨ht, _⟩ := h
      subst ht
      have hall2 : ∀ c ∈ r2.takeWhile Char.isDigit, Char.isDigit c = true :=
        fun c hc => mem_takeWhile _ r2 c hc
      have e1 : List.takeWhile Char.isDigit ('.' :: List.takeWhile Char.isDigit r2) = [] := by
        simp [List.takeWhile, Char.isDigit]
      have e2 : List.dropWhile Char.isDigit ('.' :: List.takeWhile Char.isDigit r2) =
          '.' :: List.takeWhile Char.isDigit r2 := by
        simp [List.dropWhile, Char.isDigit]
      simp [parseFloatQ, takeWhile_all_append _ _ _ hall, dropWhile_all_append _ _ _ hall,
        e1, e2, hd, List.all_eq_true.mpr hall2]
    · -- no dot: the capture is exactly the digit run
      simp only [Option.some.injEq, Prod.mk.injEq] at h
      obtain ⟨ht, _⟩ := h
      subst ht
      simp [parseFloatQ, takeWhile_of_all _ _ hall, dropWhile_of_all _ _ hall, hd]

/-- A successful `searchGo` scan comes from a successful matcher call at some
context and suffix. -/
theorem searchGo_some {α : Type} (m : Option Char → Str → Option α) :
    ∀ (prev : Option Char) (s : Str) (a : α), searchGo m prev s = some a →
      ∃ p t, m p t = some a := by
  intro prev s
  induction s generalizing prev with
  | nil =>
    intro a h
    exact ⟨prev, [], h⟩
  | cons c cs ih =>
    intro a h
    unfold searchGo at h
    split at h
    · rename_i b hb
      cases h
      exact ⟨prev, c :: cs, hb⟩
    · exact ih (some c) a h

/-- A successful `re.search` comes from a successful matcher call on some
suffix of the text. -/
theorem searchPat_some {α : Type} (m : Str → Option α) (s : Str) (a : α)
    (h : searchPat m s = some a) : ∃ t, m t = some a := by
  unfold searchPat at h
  obtain ⟨p, t, ht⟩ := searchGo_some _ none s a h
  exact ⟨t, ht⟩

/-- Both captures of the explicit charge∕discharge pattern are numeral-lexer
outputs, so `_normalize_crate` accepts them. -/
theorem matchCD_caps (s g1 g2 : Str) (h : matchCD s = some (g1, g2)) :
    (parseFloatQ g1).isSome = true ∧ (parseFloatQ g2).isSome = true := by
  unfold matchCD at h
  split at h
  · cases h
  rename_i n1 r1 h1
  dsimp only [spanP] at h
  split at h
  · cases h
  rename_i t3 r3 h3
  split at h
  · cases h
  rename_i t4 r4 h4
  split at h
  · cases h
  rename_i t5 r5 h5
  split at h
  · cases h
  rename_i t7 r7 h7
  split at h
  · cases h
  rename_i n2 r8 h8
  split at h
  · cases h
  rename_i t10 r10 h10
  split at h
  · cases h
  rename_i t11 r11 h11
  split at h
  · rename_i t12 h12
    simp only [Option.some.injEq, Prod.mk.injEq] at h
    obtain ⟨hg1, hg2⟩ := h
    subst hg1
    subst hg2
    exact ⟨parseFloatQ_of_lexNum _ _ _ h1, parseFloatQ_of_lexNum _ _ _ h8⟩
  · cases h

/-- Both captures of the asymmetric-rate pattern are numeral-lexer outputs. -/
theorem matchAsym_caps (s g1 g2 : Str) (h : matchAsym s = some (g1, g2)) :
    (parseFloatQ g1).isSome = true ∧ (parseFloatQ g2).isSome = true := by
  unfold matchAsym at h
  split at h
  · cases h
  rename_i n1 r1 h1
  dsimp only [spanP] at h
  split at h
  · cases h
  rename_i t3 r3 h3
  split at h
  · rename_i c r5 h5
    split at h
    · split at h
      · cases h
      rename_i n2 r7 h7
      split at h
      · rename_i t8 h8
        simp only [Option.some.injEq, Prod.mk.injEq] at h
        obtain ⟨hg1, hg2⟩ := h
        subst hg1
        subst hg2
        exact ⟨parseFloatQ_of_lexNum _ _ _ h1, parseFloatQ_of_lexNum _ _ _ h7⟩
      · cases h
    · cases h
  · cases h

/-- Every successful run of the fallback pattern loop returns the same value
for charge and discharge. -/
theorem crateLoop_sym (s : Str) :
    ∀ (ps : List (Str → Option (Str × Str))) (p : Option ℚ × Option ℚ),
      crateLoop s ps = .ok p → p.1 = p.2 := by
  intro ps
  induction ps with
  | nil =>
    intro p h
    unfold crateLoop at h
    obtain rfl := (Except.ok.inj h).symm
    rfl
  | cons m ms ih =>
    intro p h
    unfold crateLoop at h
    split at h
    · rename_i g rest hg
      dsimp only at h
      split at h
      · -- the `C∕n` denominator branch
        split at h
        · rename_i d hd
          split at h
          · split at h
            · cases h
            · obtain rfl := (Except.ok.inj h).symm
              rfl
          · -- fall back to the first number in the match text
            split at h
            · obtain rfl := (Except.ok.inj h).symm
              rfl
            · exact ih p h
        · split at h
          · obtain rfl := (Except.ok.inj h).symm
            rfl
          · exact ih p h
      · split at h
        · obtain rfl := (Except.ok.inj h).symm
          rfl
        · exact ih p h
    · exact ih p h

/-- C10: every successful result of `extract_crates` has its charge value and
its discharge value either both `None` or both set: the explicit
charge∕discharge and asymmetric patterns always set both (their captures are
numerals and parse), and every other path assigns one symmetric value to both
fields. -/
theorem c10_crates_both_or_neither (s : Str) (p : Option ℚ × Option ℚ)
    (h : extract_crates s = .ok p) : p.1.isSome = p.2.isSome := by
  unfold extract_crates at h
  split at h
  · rename_i g1 g2 hs
    obtain ⟨t, ht⟩ := searchPat_some _ s _ hs
    obtain ⟨h1, h2⟩ := matchCD_caps t g1 g2 ht
    obtain rfl := (Except.ok.inj h).symm
    show (_normalize_crate g1).isSome = (_normalize_crate g2).isSome
    rw [_normalize_crate, _normalize_crate, h1, h2]
  · split at h
    · rename_i g1 g2 hs
      obtain ⟨t, ht⟩ := searchPat_some _ s _ hs
      obtain ⟨h1, h2⟩ := matchAsym_caps t g1 g2 ht
      obtain rfl := (Except.ok.inj h).symm
      show (_normalize_crate g1).isSome = (_normalize_crate g2).isSome
      rw [_normalize_crate, _normalize_crate, h1, h2]
    · split at h
      · rename_i g hs
        dsimp only at h
        obtain rfl := (Except.ok.inj h).symm
        rfl
      · rw [crateLoop_sym s _ p h]

/-- Witness for `c10_crates_both_or_neither` at the asymmetric input
`"1C∕2C"`, whose result is `(some 1, some 2)`. -/
theorem c10_witness :
    ((some (1:ℚ), some (2:ℚ)) : Option ℚ × Option ℚ).1.isSome =
      ((some (1:ℚ), some (2:ℚ)) : Option ℚ × Option ℚ).2.isSome :=
  c10_crates_both_or_neither (chars "1C/2C") (some 1, some 2)
    (by with_unfolding_all rfl)

/-! ### Claim C7: the classifier verdict gate in `process_pdf` -/

/-- With a positive retry budget the retry loop makes at least one attempt. -/
theorem callGo_pos (f : ℕ → AttemptOutcome) (rem i : ℕ) (h : 0 < rem) :
    i < (callGo f rem i).2.2 := by
  obtain ⟨h1, h2, h3⟩ := callGo_spec f rem i
  match ho : (callGo f rem i).1 with
  | none =>
    obtain ⟨e1, _⟩ := h2 ho
    rw [e1]
    dsimp only
    omega
  | some resp =>
    obtain ⟨_, nn, hn1, hn2, hn3, _, _⟩ := h3 resp ho
    omega

/-- C7: when the document text resolves and the classification call returns
a response, `process_pdf` returns normally, and the in-domain decision is the
substring test `"no" ∈ lower(strip(content))` on the response's first choice:
a "no" verdict stops processing with zero extraction-endpoint calls, zero
battery-related count and no saved records; any other verdict marks the
document battery-related and makes at least one extraction-endpoint call. -/
theorem c7_classification_verdict (env : PdfEnv) (t : Str) (resp : ModelResponse)
    (d : ℚ) (n : ℕ)
    (hres : resolvedPdfText env = some t)
    (hne : (pyStrip t).isEmpty = false)
    (hc : call_model_safely env.classifyAttempt 3 = (some resp, d, n)) :
    ∃ r, process_pdf env = .ok r ∧
      (verdictSaysNo (resp.choices.headD []) = true →
        r.extraction_calls = 0 ∧ r.battery_related_files = 0 ∧
        r.saved_records = none) ∧
      (verdictSaysNo (resp.choices.headD []) = false →
        r.battery_related_files = 1 ∧ 1 ≤ r.extraction_calls) := by
  have hcnt : 1 ≤ (call_model_safely env.extractAttempt 3).2.2 :=
    callGo_pos env.extractAttempt 3 0 (by omega)
  cases hv : verdictSaysNo (resp.choices.headD []) with
  | true =>
    refine ⟨⟨1, 0, 0, 0, 0, n, 0, none⟩, ?_, ?_, ?_⟩
    · simp only [process_pdf, hres, hne, Bool.false_eq_true, if_false, hc, hv,
        if_true]
      all_goals rfl
    · exact fun _ => ⟨rfl, rfl, rfl⟩
    · exact fun hco => Bool.noConfusion hco
  | false =>
    rcases heq : call_model_safely env.extractAttempt 3 with ⟨eo, ed, ecnt⟩
    rw [heq] at hcnt
    cases eo with
    | none =>
      refine ⟨⟨1, 1, 0, 0, 1, n, ecnt, none⟩, ?_, ?_, ?_⟩
      · simp only [process_pdf, hres, hne, Bool.false_eq_true, if_false, hc, hv,
          heq]
        all_goals rfl
      · exact fun hco => Bool.noConfusion hco
      · exact fun _ => ⟨rfl, hcnt⟩
    | some eresp =>
      rcases hpr : env.parseRecords (eresp.choices.headD []) with u | json_data
      · refine ⟨⟨1, 1, 0, 0, 1, n, ecnt, none⟩, ?_, ?_, ?_⟩
        · simp only [process_pdf, hres, hne, Bool.false_eq_true, if_false, hc,
            hv, heq, hpr]
          all_goals rfl
        · exact fun hco => Bool.noConfusion hco
        · exact fun _ => ⟨rfl, hcnt⟩
      · rcases hstd : standardize_json_data json_data t with v | std
        · refine ⟨⟨1, 1, 0, 1, 0, n, ecnt, none⟩, ?_, ?_, ?_⟩
          · simp only [process_pdf, hres, hne, Bool.false_eq_true, if_false, hc,
              hv, heq, hpr, hstd]
            all_goals rfl
          · exact fun hco => Bool.noConfusion hco
          · exact fun _ => ⟨rfl, hcnt⟩
        · cases hw : env.writeOk with
          | true =>
            refine ⟨⟨1, 1, 1, 0, 0, n, ecnt, some std⟩, ?_, ?_, ?_⟩
            · simp only [process_pdf, hres, hne, Bool.false_eq_true, if_false,
                hc, hv, heq, hpr, hstd, hw, if_true]
              all_goals rfl
            · exact fun hco => Bool.noConfusion hco
            · exact fun _ => ⟨rfl, hcnt⟩
          | false =>
            refine ⟨⟨1, 1, 0, 1, 0, n, ecnt, none⟩, ?_, ?_, ?_⟩
            · simp only [process_pdf, hres, hne, Bool.false_eq_true, if_false,
                hc, hv, heq, hpr, hstd, hw]
              all_goals rfl
            · exact fun hco => Bool.noConfusion hco
            · exact fun _ => ⟨rfl, hcnt⟩

/-! ### Claim C9: the start of the candidate abstract -/

/-- C9 counterexample: the start scan prefers the keyword list order, not the
earliest occurrence in the text — "summary" occurs at index 0 but "abstract"
(first in the list) wins, and the candidate that would start at the earliest
marker is different. -/
theorem c9_counterexample_keyword_priority :
    extract_abstract (chars "summary intro abstract: hello") = chars "hello" ∧
    searchIdx (abstractKeywordTok "summary")
        (chars "summary intro abstract: hello") =
      some (0, (chars "summary ", chars "intro abstract: hello")) ∧
    abstractFrom (chars "intro abstract: hello") ≠ chars "hello" := by
  refine ⟨?_, ?_, ?_⟩
  · with_unfolding_all rfl
  · with_unfolding_all rfl
  · decide

/-- C9 (amended): the marker keywords are tried in LIST order, each searched
case-insensitively over the whole text: whenever `abstract` (the first listed
keyword) matches anywhere, the candidate abstract is built from the text
after that marker's end (`{kw}[\s]*[:]?`), regardless of other keywords
occurring earlier in the text; and when no listed keyword occurs at all the
result is exactly the first 1000 characters of the document. -/
theorem c9_abstract_start (text : Str) :
    (∀ m r, searchPat (abstractKeywordTok "abstract") text = some (m, r) →
      extract_abstract text = abstractFrom r) ∧
    (searchPat (abstractKeywordTok "abstract") text = none →
     searchPat (abstractKeywordTok "summary") text = none →
     searchPat (abstractKeywordTok "highlights") text = none →
     searchPat (abstractKeywordTok "graphical abstract") text = none →
      extract_abstract text = text.take 1000) := by
  constructor
  · intro m r h
    simp only [extract_abstract, abstractStartScan, h]
  · intro h1 h2 h3 h4
    simp only [extract_abstract, abstractStartScan, h1, h2, h3, h4]

/-- Witness for `c9_abstract_start` at `"xyz abstract: Q"`. -/
theorem c9_witness :
    extract_abstract (chars "xyz abstract: Q") = abstractFrom (chars " Q") :=
  (c9_abstract_start (chars "xyz abstract: Q")).1 (chars "abstract:")
    (chars " Q") (by with_unfolding_all rfl)

/-! ### Claim C4: model value vs full-text fallback -/

/-- C4 counterexample: a sentinel model value is never re-extracted — the
temperature branch is guarded by `item[key] != "N/A"`, so the record keeps
the sentinel even though the full text parses to 25. -/
theorem c4_counterexample_sentinel_skipped :
    standardize_json_data [[(tempKey, JVal.str naStr)]] (chars "25 °C") =
      .ok [[(tempKey, JVal.str naStr)]] ∧
    extract_temperature (chars "25 °C") = some 25 := by
  constructor
  · with_unfolding_all rfl
  · with_unfolding_all rfl

/-- C4 (amended), on the temperature family (the claim's cited lines): a
SENTINEL model value is skipped untouched (no re-extraction); a non-sentinel
model value that parses is always preferred (the full text is not consulted);
the full-text extractor is the fallback only when a non-sentinel model value
fails to parse and the full text is nonempty. -/
theorem c4_model_value_precedence (t v : Str) (item : Rec) (q : ℚ) :
    (getV item tempKey = some (.str naStr) → tempStep t item = item) ∧
    (getV item tempKey = some (.str v) → v ≠ naStr →
      extract_temperature v = some q →
      tempStep t item = setV item tempKey (.num q)) ∧
    (getV item tempKey = some (.str v) → v ≠ naStr →
      extract_temperature v = none → t.isEmpty = false →
      extract_temperature t = some q →
      tempStep t item = setV item tempKey (.num q)) := by
  refine ⟨?_, ?_, ?_⟩
  · intro h
    simp [tempStep, h]
  · intro h hv hq
    simp [tempStep, h, hv, hq]
  · intro h hv hnv ht hqt
    simp [tempStep, h, hv, hnv, ht, hqt]

/-- Witness for `c4_model_value_precedence`: the parseable model value
`"25 °C"` is written as the number 25 without consulting the (empty) full
text. -/
theorem c4_witness :
    tempStep (chars "") [(tempKey, JVal.str (chars "25 °C"))] =
      setV [(tempKey, JVal.str (chars "25 °C"))] tempKey (.num 25) :=
  (c4_model_value_precedence (chars "") (chars "25 °C")
      [(tempKey, JVal.str (chars "25 °C"))] 25).2.1
    (by with_unfolding_all rfl) (by decide) (by with_unfolding_all rfl)

/-! ### Claim C3: ordering of the returned voltage bounds -/

/-- Unfolding equation of the scan driver at zero fuel. -/
theorem runPattern_zero {β : Type} (m : Option Char → Str → Option (Str × Str))
    (f : Str → Option β) (prev : Option Char) (s : Str) :
    runPattern m f 0 prev s = none := rfl

/-- Unfolding equation of the scan driver at positive fuel. -/
theorem runPattern_succ {β : Type} (m : Option Char → Str → Option (Str × Str))
    (f : Str → Option β) (n : ℕ) (prev : Option Char) (s : Str) :
    runPattern m f (n + 1) prev s =
      (match m prev s with
      | some (txt, rest) =>
        match f txt with
        | some b => some b
        | none =>
          match txt with
          | [] =>
            match s with
            | [] => none
            | c :: cs => runPattern m f n (some c) cs
          | _ :: _ => runPattern m f n (txt.getLast?.orElse fun _ => prev) rest
      | none =>
        match s with
        | [] => none
        | c :: cs => runPattern m f n (some c) cs) := by
  with_unfolding_all rfl

/-- A successful `re.finditer` loop body result comes from the body applied
to some match text. -/
theorem runPattern_some {β : Type} (m : Option Char → Str → Option (Str × Str))
    (f : Str → Option β) :
    ∀ (fuel : ℕ) (prev : Option Char) (s : Str) (b : β),
      runPattern m f fuel prev s = some b → ∃ t, f t = some b := by
  intro fuel
  induction fuel with
  | zero =>
    intro prev s b h
    rw [runPattern_zero] at h
    cases h
  | succ n ih =>
    intro prev s b h
    rw [runPattern_succ] at h
    split at h
    · rename_i txt rest hm
      split at h
      · rename_i b2 hf
        cases h
        exact ⟨txt, hf⟩
      · split at h
        · split at h
          · cases h
          · exact ih _ _ _ h
        · exact ih _ _ _ h
    · split at h
      · cases h
      · exact ih _ _ _ h

/-- The voltage loop body only ever returns a `(min, max)` pair. -/
theorem voltBranch_le (g : Str) (p : ℚ × ℚ) (h : voltBranch g = some p) :
    p.1 ≤ p.2 := by
  unfold voltBranch at h
  split at h
  · split at h
    · simp only [Option.some.injEq] at h
      subst h
      exact min_le_max
    · cases h
  · cases h

/-- Every `(lower, upper)` assignment made by the voltage pattern loop is
ordered, so an ordered accumulator stays ordered. -/
theorem voltLoop_min_le_max (s : Str) :
    ∀ (ps : List (Str → Option (Str × Str))) (acc : Option ℚ × Option ℚ)
      (lo up : ℚ),
      (∀ l u, acc = (some l, some u) → l ≤ u) →
      voltLoop s ps acc = (some lo, some up) → lo ≤ up := by
  intro ps
  induction ps with
  | nil =>
    intro acc lo up hacc h
    unfold voltLoop at h
    exact hacc lo up h
  | cons m ms ih =>
    intro acc lo up hacc h
    unfold voltLoop at h
    split at h
    · rename_i l u hrun
      refine ih _ lo up ?_ h
      intro l2 u2 he
      simp only [Prod.mk.injEq, Option.some.injEq] at he
      obtain ⟨he1, he2⟩ := he
      subst he1
      subst he2
      unfold finditerRun at hrun
      obtain ⟨t, ht⟩ := runPattern_some _ _ _ _ _ _ hrun
      exact voltBranch_le t (l, u) ht
    · exact ih _ lo up hacc h

/-- C3 counterexample: with phrase-located bounds the extractor trusts the
phrase captures, not min∕max ordering — naming the larger value as the lower
limit is returned as is, so lower > upper. -/
theorem c3_counterexample_phrase_order :
    extract_voltage_limits (chars "lower limit: 4.2 V upper limit: 2.5 V") =
      (some (21/5 : ℚ), some (5/2 : ℚ)) ∧ ¬ ((21/5 : ℚ) ≤ (5/2 : ℚ)) := by
  constructor
  · with_unfolding_all rfl
  · norm_num

/-- C3 (amended): the min∕max ordering `lower ≤ upper` holds on every input
the dedicated lower∕upper∕cut-off phrase searches do not match — there both
bounds can only come from the pattern loop, whose every assignment is a
`(min, max)` pair of the two captured values.  (When a phrase search matches,
the captures are trusted in textual order and the guarantee fails, per the
counterexample.) -/
theorem c3_min_le_max_when_no_phrases (s : Str) (lo up : ℚ)
    (hlow : searchPat (limPhrase ["lower", "low"] false) s = none)
    (hup : searchPat (limPhrase ["upper", "high"] false) s = none)
    (hcut : searchPat (matchCutoff false) s = none)
    (h : extract_voltage_limits s = (some lo, some up)) : lo ≤ up := by
  unfold extract_voltage_limits at h
  dsimp only at h
  rw [hlow, hup, hcut] at h
  dsimp only [Option.map] at h
  exact voltLoop_min_le_max s voltagePatterns (none, none) lo up
    (fun l u he => by simp at he) h

/-- Witness for `c3_min_le_max_when_no_phrases` at the bare range
`"2.5 to 4.2 V"`. -/
theorem c3_witness : (5/2 : ℚ) ≤ (21/5 : ℚ) :=
  c3_min_le_max_when_no_phrases (chars "2.5 to 4.2 V") (5/2) (21/5)
    (by with_unfolding_all rfl) (by with_unfolding_all rfl)
    (by with_unfolding_all rfl) (by with_unfolding_all rfl)

/-! ### Claim C8: the per-document exception boundary of `process_pdf` -/

/-- Counterexample to C8 as stated: a document none of the readers can parse
is a failure of the run on that file, yet `process_pdf` converts it to a
plain skip — both error counters stay zero, so this failure is NOT converted
to an error-counter increment. -/
theorem c8_counterexample_unreadable_uncounted :
    process_pdf ⟨none, none, fun _ => .raise, fun _ => .raise,
        fun _ => .error (), false⟩ =
      .ok ⟨1, 0, 0, 0, 0, 0, 0, none⟩ := by
  with_unfolding_all rfl

/-- C8 (amended): `process_pdf` always returns normally — for every reader,
endpoint, JSON-parsing and file-writing behavior the per-document boundary
catches every failure and the document is counted processed exactly once.
(The conversion to an error-counter increment claimed by the spec holds only
for the model-call and parse failures, not for the unreadable-file skip.) -/
theorem c8_process_pdf_total (env : PdfEnv) :
    ∃ r, process_pdf env = .ok r ∧ r.processed_files = 1 := by
  rcases hres : resolvedPdfText env with _ | t
  · refine ⟨⟨1, 0, 0, 0, 0, 0, 0, none⟩, ?_, rfl⟩
    simp only [process_pdf, hres]
    all_goals rfl
  · cases hemp : (pyStrip t).isEmpty with
    | true =>
      refine ⟨⟨1, 0, 0, 0, 0, 0, 0, none⟩, ?_, rfl⟩
      simp only [process_pdf, hres, hemp, if_true]
      all_goals rfl
    | false =>
      rcases heqc : call_model_safely env.classifyAttempt 3 with ⟨co, cd, cn⟩
      cases co with
      | none =>
        refine ⟨⟨1, 0, 0, 1, 0, cn, 0, none⟩, ?_, rfl⟩
        simp only [process_pdf, hres, hemp, Bool.false_eq_true, if_false, heqc]
        all_goals rfl
      | some cresp =>
        cases hv : verdictSaysNo (cresp.choices.headD []) with
        | true =>
          refine ⟨⟨1, 0, 0, 0, 0, cn, 0, none⟩, ?_, rfl⟩
          simp only [process_pdf, hres, hemp, Bool.false_eq_true, if_false,
            heqc, hv, if_true]
          all_goals rfl
        | false =>
          rcases heqe : call_model_safely env.extractAttempt 3 with ⟨eo, ed, ecnt⟩
          cases eo with
          | none =>
            refine ⟨⟨1, 1, 0, 0, 1, cn, ecnt, none⟩, ?_, rfl⟩
            simp only [process_pdf, hres, hemp, Bool.false_eq_true, if_false,
              heqc, hv, heqe]
            all_goals rfl
          | some eresp =>
            rcases hpr : env.parseRecords (eresp.choices.headD []) with u | jd
            · refine ⟨⟨1, 1, 0, 0, 1, cn, ecnt, none⟩, ?_, rfl⟩
              simp only [process_pdf, hres, hemp, Bool.false_eq_true, if_false,
                heqc, hv, heqe, hpr]
              all_goals rfl
            · rcases hstd : standardize_json_data jd t with v | std
              · refine ⟨⟨1, 1, 0, 1, 0, cn, ecnt, none⟩, ?_, rfl⟩
                simp only [process_pdf, hres, hemp, Bool.false_eq_true,
                  if_false, heqc, hv, heqe, hpr, hstd]
                all_goals rfl
              · cases hw : env.writeOk with
                | true =>
                  refine ⟨⟨1, 1, 1, 0, 0, cn, ecnt, some std⟩, ?_, rfl⟩
                  simp only [process_pdf, hres, hemp, Bool.false_eq_true,
                    if_false, heqc, hv, heqe, hpr, hstd, hw, if_true]
                  all_goals rfl
                | false =>
                  refine ⟨⟨1, 1, 0, 1, 0, cn, ecnt, none⟩, ?_, rfl⟩
                  simp only [process_pdf, hres, hemp, Bool.false_eq_true,
                    if_false, heqc, hv, heqe, hpr, hstd, hw]
                  all_goals rfl

/-- Witness for `c8_process_pdf_total` at a concrete environment in which
every external call fails. -/
theorem c8_witness :
    ∃ r, process_pdf ⟨some (chars "battery text"), none, fun _ => .raise,
        fun _ => .raise, fun _ => .error (), false⟩ = .ok r ∧
      r.processed_files = 1 :=
  c8_process_pdf_total
    ⟨some (chars "battery text"), none, fun _ => .raise, fun _ => .raise,
     fun _ => .error (), false⟩

/-- Witness for `c7_classification_verdict`: a readable document whose
classifier answers "No, this paper is about synthesis". -/
theorem c7_witness :
    ∃ r, process_pdf
        ⟨some (chars "battery text"), none,
         fun _ => .respond ⟨[chars "No, this paper is about synthesis"], none⟩ 1,
         fun _ => .raise, fun _ => .error (), false⟩ = .ok r ∧
      (verdictSaysNo ((ModelResponse.mk [chars "No, this paper is about synthesis"]
          none).choices.headD []) = true →
        r.extraction_calls = 0 ∧ r.battery_related_files = 0 ∧
        r.saved_records = none) ∧
      (verdictSaysNo ((ModelResponse.mk [chars "No, this paper is about synthesis"]
          none).choices.headD []) = false →
        r.battery_related_files = 1 ∧ 1 ≤ r.extraction_calls) :=
  c7_classification_verdict _ (chars "battery text")
    ⟨[chars "No, this paper is about synthesis"], none⟩ 1 1
    (by with_unfolding_all rfl) (by with_unfolding_all rfl)
    (by with_unfolding_all rfl)

/-! ### Claim C5: idempotence of `standardize_json_data` -/

theorem getV_mem (r : Rec) (k : Str) (v : JVal) (h : getV r k = some v) :
    (k, v) ∈ r := by
  induction r with
  | nil => cases h
  | cons p t ih =>
    obtain ⟨pk, pv⟩ := p
    unfold getV at h
    split at h
    · rename_i he
      cases h
      rw [he]
      exact List.mem_cons_self _ _
    · exact List.mem_cons_of_mem _ (ih h)

theorem normRec_getV (r : Rec) (k : Str) (v : JVal) (hr : normRec r = true)
    (h : getV r k = some v) : normValB v = true := by
  have hm := getV_mem r k v h
  have := List.all_eq_true.mp hr _ hm
  exact this

theorem mem_of_mem_dropWhile (p : Char → Bool) :
    ∀ (s : Str) (c : Char), c ∈ s.dropWhile p → c ∈ s := by
  intro s
  induction s with
  | nil => intro c h; simp [List.dropWhile] at h
  | cons a t ih =>
    intro c h
    by_cases ha : p a
    · simp only [List.dropWhile, ha] at h
      exact List.mem_cons_of_mem _ (ih c h)
    · rw [Bool.not_eq_true] at ha
      simp only [List.dropWhile, ha] at h
      exact h

/-- A matcher failing on every string over an alphabet fails to `re.search`
any text over that alphabet. -/
theorem searchGo_none_all {α : Type} (m : Str → Option α) (P : Char → Bool)
    (hm : ∀ u, (∀ c ∈ u, P c = true) → m u = none) :
    ∀ (prev : Option Char) (s : Str), (∀ c ∈ s, P c = true) →
      searchGo (fun _ u => m u) prev s = none := by
  intro prev s
  induction s generalizing prev with
  | nil =>
    intro hs
    exact hm [] (by simp)
  | cons c cs ih =>
    intro hs
    unfold searchGo
    rw [hm (c :: cs) hs]
    exact ih (some c) fun c2 hc2 => hs c2 (List.mem_cons_of_mem _ hc2)

theorem searchPat_none_all {α : Type} (m : Str → Option α) (P : Char → Bool)
    (hm : ∀ u, (∀ c ∈ u, P c = true) → m u = none)
    (s : Str) (hs : ∀ c ∈ s, P c = true) : searchPat m s = none :=
  searchGo_none_all m P hm none s hs

/-- A matcher failing on every string over an alphabet yields an empty
`re.finditer` loop on any text over that alphabet. -/
theorem runPattern_none_all {β : Type} (m : Str → Option (Str × Str))
    (f : Str → Option β) (P : Char → Bool)
    (hm : ∀ u, (∀ c ∈ u, P c = true) → m u = none) :
    ∀ (fuel : ℕ) (prev : Option Char) (s : Str), (∀ c ∈ s, P c = true) →
      runPattern (fun _ u => m u) f fuel prev s = none := by
  intro fuel
  induction fuel with
  | zero => intro prev s hs; exact runPattern_zero _ _ _ _
  | succ n ih =>
    intro prev s hs
    rw [runPattern_succ]
    rw [hm s hs]
    match s with
    | [] => rfl
    | c :: cs => exact ih (some c) cs fun c2 hc2 => hs c2 (List.mem_cons_of_mem _ hc2)

theorem finditerRun_none_all {β : Type} (m : Str → Option (Str × Str))
    (f : Str → Option β) (P : Char → Bool)
    (hm : ∀ u, (∀ c ∈ u, P c = true) → m u = none)
    (s : Str) (hs : ∀ c ∈ s, P c = true) : finditerRun m f s = none :=
  runPattern_none_all m f P hm (s.length + 1) none s hs

/-- A successful `re.search` splits the text around a matching suffix. -/
theorem searchGo_split {α : Type} (m : Str → Option α) :
    ∀ (prev : Option Char) (s : Str) (a : α),
      searchGo (fun _ u => m u) prev s = some a →
      ∃ pre suf, s = pre ++ suf ∧ m suf = some a := by
  intro prev s
  induction s generalizing prev with
  | nil =>
    intro a h
    exact ⟨[], [], rfl, h⟩
  | cons c cs ih =>
    intro a h
    unfold searchGo at h
    split at h
    · rename_i b hb
      cases h
      exact ⟨[], c :: cs, rfl, hb⟩
    · obtain ⟨pre, suf, heq, hmm⟩ := ih (some c) a h
      exact ⟨c :: pre, suf, by rw [heq, List.cons_append], hmm⟩

theorem searchPat_split {α : Type} (m : Str → Option α) (s : Str) (a : α)
    (h : searchPat m s = some a) : ∃ pre suf, s = pre ++ suf ∧ m suf = some a := by
  unfold searchPat at h
  exact searchGo_split m none s a h

theorem lowC_of_digit (c : Char) (h : c.isDigit = true) : lowC c = c := by
  unfold lowC
  simp only [Char.isDigit] at h
  simp only [Char.toLower]
  have h2 : c.toNat ≤ 57 := by
    simp only [Bool.and_eq_true, decide_eq_true_eq] at h
    exact h.2
  split
  · rename_i hcond
    omega
  · rfl

theorem digit_ne_letters (c : Char) (h : c.isDigit = true) :
    c ≠ 'v' ∧ c ≠ 'l' ∧ c ≠ 'u' ∧ c ≠ 'h' ∧ c ≠ 'c' ∧ c ≠ 'C' := by
  refine ⟨?_, ?_, ?_, ?_, ?_, ?_⟩ <;>
    (intro he; rw [he] at h; exact absurd h (by decide))

theorem digit_voltFree (c : Char) (h : c.isDigit = true) : voltFree c = true := by
  obtain ⟨h1, h2, h3, h4, h5, _⟩ := digit_ne_letters c h
  simp [voltFree, lowC_of_digit c h, h1, h2, h3, h4, h5]

theorem numChar_voltFree (c : Char) (h : numChar c = true) : voltFree c = true := by
  simp only [numChar, Bool.or_eq_true, decide_eq_true_eq] at h
  rcases h with ((h | h) | h) | h
  · exact digit_voltFree c h
  · rw [h]; decide
  · rw [h]; decide
  · rw [h]; decide

theorem numChar_noCC (c : Char) (h : numChar c = true) :
    ¬ (c = 'C' ∨ c = 'c') := by
  simp only [numChar, Bool.or_eq_true, decide_eq_true_eq] at h
  rcases h with ((h | h) | h) | h
  · obtain ⟨_, _, _, _, h5, h6⟩ := digit_ne_letters c h
    rintro (rfl | rfl)
    · exact h6 rfl
    · exact h5 rfl
  · rw [h]; decide
  · rw [h]; decide
  · rw [h]; decide

theorem natDigitsGo_all :
    ∀ (fuel n : ℕ) (acc : Str), (∀ c ∈ acc, c.isDigit = true) →
      ∀ c ∈ natDigitsGo fuel n acc, c.isDigit = true := by
  intro fuel
  induction fuel with
  | zero => intro n acc hacc; exact hacc
  | succ m ih =>
    intro n acc hacc
    unfold natDigitsGo
    split
    · exact hacc
    · refine ih (n / 10) _ ?_
      intro c hc
      rcases List.mem_cons.mp hc with h | h
      · subst h
        have hm : n % 10 < 10 := Nat.mod_lt _ (by norm_num)
        generalize n % 10 = k at hm ⊢
        interval_cases k <;> decide
      · exact hacc c h

theorem natDigits_all (n : ℕ) : ∀ c ∈ natDigits n, c.isDigit = true := by
  unfold natDigits
  split
  · intro c hc; simp at hc; rw [hc]; decide
  · exact natDigitsGo_all _ _ [] (by simp)

theorem padZeros_all (s : Str) (k : ℕ) (h : ∀ c ∈ s, c.isDigit = true) :
    ∀ c ∈ padZeros s k, c.isDigit = true := by
  intro c hc
  unfold padZeros at hc
  rcases List.mem_append.mp hc with h2 | h2
  · rw [List.eq_of_mem_replicate h2]; decide
  · exact h c h2

/-- Every character of a re-stringified number is a digit, `.`, `-` or `/`. -/
theorem reprQ_all (q : ℚ) : ∀ c ∈ reprQ q, numChar c = true := by
  intro c hc
  unfold reprQ at hc
  dsimp only at hc
  have hsign : ∀ d ∈ (if q < 0 then (['-'] : Str) else []), numChar d = true := by
    intro d hd
    split at hd
    · simp at hd; rw [hd]; decide
    · simp at hd
  have hdig : ∀ (m : ℕ) (d : Char), d ∈ natDigits m → numChar d = true := by
    intro m d hd
    simp [numChar, natDigits_all m d hd]
  split at hc
  · rcases List.mem_append.mp hc with h2 | h2
    · rcases List.mem_append.mp h2 with h3 | h3
      · exact hsign c h3
      · exact hdig _ c h3
    · simp at h2
      rcases h2 with h3 | h3 <;> (rw [h3]; decide)
  · split at hc
    · rcases List.mem_append.mp hc with h2 | h2
      · rcases List.mem_append.mp h2 with h3 | h3
        · exact hsign c h3
        · exact hdig _ c h3
      · rcases List.mem_cons.mp h2 with h3 | h3
        · rw [h3]; decide
        · exact (by simp [numChar, padZeros_all _ _ (natDigits_all _) c h3])
    · rcases List.mem_append.mp hc with h2 | h2
      · rcases List.mem_append.mp h2 with h3 | h3
        · exact hsign c h3
        · exact hdig _ c h3
      · rcases List.mem_cons.mp h2 with h3 | h3
        · rw [h3]; decide
        · exact hdig _ c h3

theorem naStr_voltFree : ∀ c ∈ naStr, voltFree c = true := by decide

theorem naStr_noCC : ∀ c ∈ naStr, ¬ (c = 'C' ∨ c = 'c') := by decide

/-- Every character of `pyStr` on a normalized value is benign for the
voltage patterns. -/
theorem pyStr_voltFree (v : JVal) (h : normValB v = true) :
    ∀ c ∈ pyStr v, voltFree c = true := by
  cases v with
  | num q => exact fun c hc => numChar_voltFree c (reprQ_all q c hc)
  | str s =>
    simp only [normValB, decide_eq_true_eq] at h
    subst h
    exact naStr_voltFree
  | jnull => cases h
  | jbool b => cases h

theorem pyStr_noCC (v : JVal) (h : normValB v = true) :
    ∀ c ∈ pyStr v, ¬ (c = 'C' ∨ c = 'c') := by
  cases v with
  | num q => exact fun c hc => numChar_noCC c (reprQ_all q c hc)
  | str s =>
    simp only [normValB, decide_eq_true_eq] at h
    subst h
    exact naStr_noCC
  | jnull => cases h
  | jbool b => cases h

theorem litCI_head_none (p : Char) (ps : Str) (s : Str)
    (h : ∀ c ∈ s, lowC c ≠ p) : litCI (p :: ps) s = none := by
  cases s with
  | nil => rfl
  | cons c cs =>
    unfold litCI
    rw [if_neg (h c (List.mem_cons_self _ _))]

theorem litCI_rest_mem :
    ∀ (w s t r : Str), litCI w s = some (t, r) → ∀ c ∈ r, c ∈ s := by
  intro w
  induction w with
  | nil =>
    intro s t r h c hc
    unfold litCI at h
    cases h
    exact hc
  | cons p ps ih =>
    intro s t r h c hc
    cases s with
    | nil => cases h
    | cons c0 cs =>
      unfold litCI at h
      split at h
      · match h2 : litCI ps cs with
        | none => rw [h2] at h; cases h
        | some (t2, r2) =>
          rw [h2] at h
          simp only [Option.map_some', Option.some.injEq, Prod.mk.injEq] at h
          obtain ⟨_, hr⟩ := h
          subst hr
          exact List.mem_cons_of_mem _ (ih cs t2 r2 h2 c hc)
      · cases h

theorem vUnitTok_none (s : Str) (h : ∀ c ∈ s, lowC c ≠ 'v') :
    vUnitTok s = none := by
  cases s with
  | nil => rfl
  | cons c cs =>
    unfold vUnitTok
    dsimp only
    rw [if_neg (h c (List.mem_cons_self _ _))]

theorem vUnitTokNoLA_none (s : Str) (h : ∀ c ∈ s, lowC c ≠ 'v') :
    vUnitTokNoLA s = none := by
  cases s with
  | nil => rfl
  | cons c cs =>
    unfold vUnitTokNoLA
    dsimp only
    rw [if_neg (h c (List.mem_cons_self _ _))]

theorem lexNum_rest_mem (s n r : Str) (h : lexNum s = some (n, r)) :
    ∀ c ∈ r, c ∈ s := by
  intro c hc
  unfold lexNum at h
  dsimp only at h
  split at h
  · cases h
  · split at h
    · rename_i r2 heq
      simp only [Option.some.injEq, Prod.mk.injEq] at h
      obtain ⟨_, hr⟩ := h
      subst hr
      have h1 : c ∈ r2 := mem_of_mem_dropWhile _ _ _ hc
      have h2 : c ∈ List.dropWhile Char.isDigit s := by
        rw [heq]; exact List.mem_cons_of_mem _ h1
      exact mem_of_mem_dropWhile _ _ _ h2
    · simp only [Option.some.injEq, Prod.mk.injEq] at h
      obtain ⟨_, hr⟩ := h
      subst hr
      exact mem_of_mem_dropWhile _ _ _ hc

theorem lexNum_append (s n r : Str) (h : lexNum s = some (n, r)) :
    s = n ++ r := by
  unfold lexNum at h
  dsimp only at h
  split at h
  · cases h
  · split at h
    · rename_i r2 heq
      simp only [Option.some.injEq, Prod.mk.injEq] at h
      obtain ⟨hn, hr⟩ := h
      subst hn
      subst hr
      rw [List.append_assoc, List.cons_append, List.takeWhile_append_dropWhile,
        ← heq, List.takeWhile_append_dropWhile]
    · simp only [Option.some.injEq, Prod.mk.injEq] at h
      obtain ⟨hn, hr⟩ := h
      subst hn
      subst hr
      exact (List.takeWhile_append_dropWhile _ _).symm

theorem exists_last (l : Str) (h : l ≠ []) : ∃ a d, l = a ++ [d] ∧ d ∈ l :=
  ⟨l.dropLast, l.getLast h, (List.dropLast_append_getLast h).symm,
   List.getLast_mem h⟩

/-- A numeral capture decomposes as `a ++ [d]` with `d` a digit or dot. -/
theorem lexNum_last (s n r : Str) (h : lexNum s = some (n, r)) :
    ∃ a d, n = a ++ [d] ∧ (d.isDigit = true ∨ d = '.') := by
  unfold lexNum at h
  dsimp only at h
  split at h
  · cases h
  · rename_i hne
    split at h
    · rename_i r2 heq
      simp only [Option.some.injEq, Prod.mk.injEq] at h
      obtain ⟨hn, _⟩ := h
      subst hn
      rcases eq_or_ne (r2.takeWhile Char.isDigit) [] with h2 | h2
      · refine ⟨s.takeWhile Char.isDigit, '.', ?_, Or.inr rfl⟩
        rw [h2]
      · obtain ⟨a, d, heq2, hmem⟩ := exists_last _ h2
        refine ⟨s.takeWhile Char.isDigit ++ '.' :: a, d, ?_,
          Or.inl (mem_takeWhile _ r2 _ (heq2 ▸ hmem))⟩
        rw [heq2, List.append_assoc, List.cons_append]
    · simp only [Option.some.injEq, Prod.mk.injEq] at h
      obtain ⟨hn, _⟩ := h
      subst hn
      have hne2 : s.takeWhile Char.isDigit ≠ [] := by
        simpa [List.isEmpty_iff] using hne
      obtain ⟨a, d, heq2, hmem⟩ := exists_last _ hne2
      exact ⟨a, d, heq2, Or.inl (mem_takeWhile _ s _ (heq2 ▸ hmem))⟩

theorem sepTokCI_rest_mem (s t r : Str) (h : sepTokCI s = some (t, r)) :
    ∀ c ∈ r, c ∈ s := by
  intro c hc
  cases s with
  | nil => cases h
  | cons c0 cs =>
    unfold sepTokCI at h
    dsimp only at h
    split at h
    · simp only [Option.some.injEq, Prod.mk.injEq] at h
      obtain ⟨_, hr⟩ := h
      subst hr
      exact List.mem_cons_of_mem _ hc
    · split at h
      · rename_i x hto
        cases h
        exact litCI_rest_mem _ _ _ _ hto c hc
      · exact litCI_rest_mem _ _ _ _ h c hc

theorem limPhrase_none (heads : List String) (la : Bool) (s : Str)
    (h : ∀ w ∈ heads, litCI (chars w) s = none) :
    limPhrase heads la s = none := by
  induction heads with
  | nil => rfl
  | cons w ws ih =>
    unfold limPhrase
    rw [h w (List.mem_cons_self _ _)]
    exact ih fun w2 hw2 => h w2 (List.mem_cons_of_mem _ hw2)

theorem cutHeadTok_none (s : Str) (hc : ∀ c ∈ s, lowC c ≠ 'c')
    (hl : ∀ c ∈ s, lowC c ≠ 'l') : cutHeadTok s = none := by
  unfold cutHeadTok
  rw [show chars "cut" = 'c' :: chars "ut" from rfl, litCI_head_none _ _ _ hc]
  rw [show chars "limiting" = 'l' :: chars "imiting" from rfl,
    litCI_head_none _ _ _ hl]

theorem matchCutoff_none (la : Bool) (s : Str) (hc : ∀ c ∈ s, lowC c ≠ 'c')
    (hl : ∀ c ∈ s, lowC c ≠ 'l') : matchCutoff la s = none := by
  unfold matchCutoff
  rw [cutHeadTok_none s hc hl]

theorem voltFree_spec (c : Char) (h : voltFree c = true) :
    lowC c ≠ 'v' ∧ lowC c ≠ 'l' ∧ lowC c ≠ 'u' ∧ lowC c ≠ 'h' ∧ lowC c ≠ 'c' := by
  simp only [voltFree, Bool.not_eq_eq_eq_not, Bool.not_true, Bool.or_eq_false_iff,
    decide_eq_false_iff_not] at h
  exact ⟨h.1.1.1.1, h.1.1.1.2, h.1.1.2, h.1.2, h.2⟩

theorem matchVolt1_none (s : Str) (hs : ∀ c ∈ s, voltFree c = true) :
    matchVolt1 s = none := by
  unfold matchVolt1
  match hlx : lexNum s with
  | none => rfl
  | some (n, r1) =>
    dsimp only [spanP]
    rw [vUnitTok_none]
    · rfl
    · intro c hc
      have h1 : c ∈ r1 := mem_of_mem_dropWhile _ _ _ hc
      have h2 : c ∈ s := lexNum_rest_mem s n r1 hlx c h1
      exact (voltFree_spec c (hs c h2)).1

theorem matchVolt2_none (s : Str) (hs : ∀ c ∈ s, voltFree c = true) :
    matchVolt2 s = none := by
  unfold matchVolt2
  match hlx : lexNum s with
  | none => rfl
  | some (n1, r1) =>
    dsimp only [spanP]
    match hsep : sepTokCI (r1.dropWhile isWS) with
    | none => rfl
    | some (sep, r3) =>
      dsimp only
      match hlx2 : lexNum (r3.dropWhile isWS) with
      | none => rfl
      | some (n2, r5) =>
        dsimp only
        rw [vUnitTok_none]
        · rfl
        · intro c hc
          have h1 : c ∈ r5 := mem_of_mem_dropWhile _ _ _ hc
          have h2 : c ∈ r3.dropWhile isWS := lexNum_rest_mem _ n2 r5 hlx2 c h1
          have h3 : c ∈ r3 := mem_of_mem_dropWhile _ _ _ h2
          have h4 : c ∈ r1.dropWhile isWS := sepTokCI_rest_mem _ sep r3 hsep c h3
          have h5 : c ∈ r1 := mem_of_mem_dropWhile _ _ _ h4
          have h6 : c ∈ s := lexNum_rest_mem s n1 r1 hlx c h5
          exact (voltFree_spec c (hs c h6)).1

theorem matchVolt3_none (s : Str) (hs : ∀ c ∈ s, voltFree c = true) :
    matchVolt3 s = none := by
  unfold matchVolt3
  rw [matchCutoff_none true s (fun c hc => (voltFree_spec c (hs c hc)).2.2.2.2)
    (fun c hc => (voltFree_spec c (hs c hc)).2.1)]
  rfl

theorem matchVolt4_none (s : Str) (hs : ∀ c ∈ s, voltFree c = true) :
    matchVolt4 s = none := by
  unfold matchVolt4
  rw [limPhrase_none _ true s ?_]
  · rfl
  · intro w hw
    simp only [List.mem_cons, List.mem_singleton] at hw
    rcases hw with rfl | rfl | rfl | rfl | h
    · exact litCI_head_none _ _ _ fun c hc => (voltFree_spec c (hs c hc)).2.2.1
    · exact litCI_head_none _ _ _ fun c hc => (voltFree_spec c (hs c hc)).2.1
    · exact litCI_head_none _ _ _ fun c hc => (voltFree_spec c (hs c hc)).2.2.2.1
    · exact litCI_head_none _ _ _ fun c hc => (voltFree_spec c (hs c hc)).2.1
    · cases h

theorem matchVolt5_none (s : Str) (hs : ∀ c ∈ s, voltFree c = true) :
    matchVolt5 s = none := by
  unfold matchVolt5
  rw [show chars "voltage" = 'v' :: chars "oltage" from rfl,
    litCI_head_none _ _ _ fun c hc => (voltFree_spec c (hs c hc)).1]

/-- On text without the voltage patterns' trigger letters,
`extract_voltage_limits` finds nothing. -/
theorem extract_voltage_limits_none (s : Str)
    (hs : ∀ c ∈ s, voltFree c = true) :
    extract_voltage_limits s = (none, none) := by
  have hlow : searchPat (limPhrase ["lower", "low"] false) s = none := by
    refine searchPat_none_all _ voltFree ?_ s hs
    intro u hu
    refine limPhrase_none _ _ _ ?_
    intro w hw
    simp only [List.mem_cons, List.mem_singleton] at hw
    rcases hw with rfl | rfl | h
    · exact litCI_head_none _ _ _ fun c hc => (voltFree_spec c (hu c hc)).2.1
    · exact litCI_head_none _ _ _ fun c hc => (voltFree_spec c (hu c hc)).2.1
    · cases h
  have hup : searchPat (limPhrase ["upper", "high"] false) s = none := by
    refine searchPat_none_all _ voltFree ?_ s hs
    intro u hu
    refine limPhrase_none _ _ _ ?_
    intro w hw
    simp only [List.mem_cons, List.mem_singleton] at hw
    rcases hw with rfl | rfl | h
    · exact litCI_head_none _ _ _ fun c hc => (voltFree_spec c (hu c hc)).2.2.1
    · exact litCI_head_none _ _ _ fun c hc => (voltFree_spec c (hu c hc)).2.2.2.1
    · cases h
  have hcut : searchPat (matchCutoff false) s = none := by
    refine searchPat_none_all _ voltFree ?_ s hs
    intro u hu
    exact matchCutoff_none false u
      (fun c hc => (voltFree_spec c (hu c hc)).2.2.2.2)
      (fun c hc => (voltFree_spec c (hu c hc)).2.1)
  have hf1 : finditerRun matchVolt1 voltBranch s = none :=
    finditerRun_none_all _ _ voltFree (fun u hu => matchVolt1_none u hu) s hs
  have hf2 : finditerRun matchVolt2 voltBranch s = none :=
    finditerRun_none_all _ _ voltFree (fun u hu => matchVolt2_none u hu) s hs
  have hf3 : finditerRun matchVolt3 voltBranch s = none :=
    finditerRun_none_all _ _ voltFree (fun u hu => matchVolt3_none u hu) s hs
  have hf4 : finditerRun matchVolt4 voltBranch s = none :=
    finditerRun_none_all _ _ voltFree (fun u hu => matchVolt4_none u hu) s hs
  have hf5 : finditerRun matchVolt5 voltBranch s = none :=
    finditerRun_none_all _ _ voltFree (fun u hu => matchVolt5_none u hu) s hs
  unfold extract_voltage_limits
  dsimp only
  rw [hlow, hup, hcut]
  simp only [Option.map_none']
  unfold voltagePatterns
  rw [voltLoop, hf1, voltLoop, hf2, voltLoop, hf3, voltLoop, hf4, voltLoop, hf5,
    voltLoop]

/-- The voltage-text buffer of a normalized record uses only benign
characters. -/
theorem voltageText_all (item : Rec) (hr : normRec item = true) :
    ∀ c ∈ voltageText item, voltFree c = true := by
  intro c hc
  unfold voltageText at hc
  have hpart : ∀ (k : Str), c ∈ (match getV item k with
      | some v => if v.truthy = true then pyStr v ++ [' '] else []
      | none => ([] : Str)) → voltFree c = true := by
    intro k hck
    match hgv : getV item k with
    | none => rw [hgv] at hck; cases hck
    | some v =>
      rw [hgv] at hck
      dsimp only at hck
      by_cases htr : v.truthy = true
      · rw [if_pos htr] at hck
        rcases List.mem_append.mp hck with h2 | h2
        · exact pyStr_voltFree v (normRec_getV item k v hr hgv) c h2
        · simp at h2; rw [h2]; decide
      · rw [if_neg htr] at hck
        cases hck
  rcases List.mem_append.mp hc with h2 | h2
  · exact hpart lowKey h2
  · exact hpart upKey h2

/-- On an empty full text a normalized record passes the voltage step
unchanged. -/
theorem voltStep_id (t : Str) (item : Rec) (ht : t.isEmpty = true)
    (hr : normRec item = true) : voltStep t item = item := by
  have hext : extract_voltage_limits (voltageText item) = (none, none) :=
    extract_voltage_limits_none _ (voltageText_all item hr)
  unfold voltStep
  dsimp only
  rw [ht, hext]
  simp [voltAssignGuarded]

theorem digit_not_ws (c : Char) (h : c.isDigit = true) : isWS c = false := by
  by_contra hws
  rw [Bool.not_eq_false] at hws
  unfold isWS at hws
  simp only [Char.isWhitespace, Bool.or_eq_true, decide_eq_true_eq] at hws
  rcases hws with ((rfl | rfl) | rfl) | rfl <;> exact absurd h (by decide)

theorem ccSafe_append :
    ∀ (x : Str) (f : Bool) (y : Str),
      ccSafe f (x ++ y) = (ccSafe f x && ccSafe (x.foldl ccStep f) y) := by
  intro x
  induction x with
  | nil => intro f y; simp [ccSafe]
  | cons c cs ih =>
    intro f y
    by_cases hb : (c = 'C' ∨ c = 'c') ∧ f = true
    · simp [ccSafe, hb]
    · simp only [List.cons_append, ccSafe, if_neg hb, List.foldl_cons]
      exact ih (ccStep f c) y

theorem ccSafe_noCC (x : Str) (hx : ∀ c ∈ x, ¬ (c = 'C' ∨ c = 'c')) :
    ∀ f, ccSafe f x = true := by
  induction x with
  | nil => intro f; rfl
  | cons c cs ih =>
    intro f
    have hc := hx c (List.mem_cons_self _ _)
    unfold ccSafe
    rw [if_neg fun hh => hc hh.1]
    exact ih (fun c2 h2 => hx c2 (List.mem_cons_of_mem _ h2)) _

theorem foldl_ccStep_ws (w : Str) (hw : ∀ c ∈ w, isWS c = true) :
    ∀ f, w.foldl ccStep f = f := by
  induction w with
  | nil => intro f; rfl
  | cons c cs ih =>
    intro f
    have hc := hw c (List.mem_cons_self _ _)
    have hstep : ccStep f c = f := by
      unfold ccStep
      have h1 : ¬ (c = 'C' ∨ c = 'c') := by
        rintro (rfl | rfl) <;> exact absurd hc (by decide)
      have h2 : ¬ (c.isDigit = true ∨ c = '.') := by
        rintro (hd | rfl)
        · rw [digit_not_ws c hd] at hc; cases hc
        · exact absurd hc (by decide)
      rw [if_neg h1, if_neg h2, if_pos hc]
    rw [List.foldl_cons, hstep]
    exact ih (fun c2 h2 => hw c2 (List.mem_cons_of_mem _ h2)) f

theorem foldl_ccStep_last (a : Str) (d : Char) (f : Bool)
    (hd : d.isDigit = true ∨ d = '.') :
    (a ++ [d]).foldl ccStep f = true := by
  rw [List.foldl_append]
  simp only [List.foldl_cons, List.foldl_nil]
  unfold ccStep
  have h1 : ¬ (d = 'C' ∨ d = 'c') := by
    rcases hd with hd | rfl
    · obtain ⟨_, _, _, _, h5, h6⟩ := digit_ne_letters d hd
      rintro (rfl | rfl)
      · exact h6 rfl
      · exact h5 rfl
    · rintro (h | h) <;> cases h
  rw [if_neg h1, if_pos hd]

/-- Every `matchAsymPlain` match text decomposes as digits-or-dot, then
whitespace, then a `C`∕`c`. -/
theorem matchAsymPlain_decomp (u : Str) (x : Str × Str)
    (h : matchAsymPlain u = some x) :
    ∃ a d w c1 r3, u = (a ++ [d]) ++ (w ++ c1 :: r3) ∧
      (d.isDigit = true ∨ d = '.') ∧ (∀ cw ∈ w, isWS cw = true) ∧
      (c1 = 'C' ∨ c1 = 'c') := by
  unfold matchAsymPlain at h
  dsimp only [spanP] at h
  split at h
  · cases h
  rename_i n1 r1 hlx
  split at h
  · rename_i c1 r3 hr2
    split at h
    · rename_i hcc
      obtain ⟨a, d, hn, hd⟩ := lexNum_last u n1 r1 hlx
      refine ⟨a, d, r1.takeWhile isWS, c1, r3, ?_, hd,
        (fun cw hcw => mem_takeWhile _ r1 cw hcw), hcc⟩
      calc u = n1 ++ r1 := lexNum_append u n1 r1 hlx
      _ = (a ++ [d]) ++ r1 := by rw [hn]
      _ = (a ++ [d]) ++ (r1.takeWhile isWS ++ r1.dropWhile isWS) := by
            rw [List.takeWhile_append_dropWhile]
      _ = (a ++ [d]) ++ (r1.takeWhile isWS ++ c1 :: r3) := by rw [hr2]
    · cases h
  · cases h

/-- A `ccSafe` text contains no asymmetric-rate match anywhere. -/
theorem searchPat_asym_none (s : Str) (hsafe : ccSafe false s = true) :
    searchPat matchAsymPlain s = none := by
  match hsp : searchPat matchAsymPlain s with
  | none => rfl
  | some x =>
    exfalso
    obtain ⟨pre, suf, hu, hm⟩ := searchPat_split _ s x hsp
    obtain ⟨a, d, w, c1, r3, hsplit, hd, hw, hcc⟩ := matchAsymPlain_decomp suf x hm
    have hfoldd : ∀ f, (a ++ [d]).foldl ccStep f = true :=
      fun f => foldl_ccStep_last a d f hd
    have hfw : ∀ f, w.foldl ccStep f = f := foldl_ccStep_ws w hw
    have hccfalse : ccSafe true (c1 :: r3) = false := by
      unfold ccSafe
      rw [if_pos ⟨hcc, rfl⟩]
    rw [hu, hsplit] at hsafe
    simp only [ccSafe_append, hfoldd, hfw, hccfalse, Bool.and_false,
      Bool.false_eq_true] at hsafe

/-- A single whitespace character is always safe. -/
theorem ccSafe_single_ws : ∀ f, ccSafe f [' '] = true := by
  intro f; cases f <;> decide

/-- The rate-text buffer of a normalized record is scan-safe. -/
theorem rateText_ccSafe (item : Rec) (hr : normRec item = true) :
    ccSafe false (rateText item) = true := by
  have hD : ∀ f, ccSafe f (match getV item dchKey with
      | some v => if v.truthy = true then chars "discharge: " ++ pyStr v else []
      | none => ([] : Str)) = true := by
    intro f
    match hgv : getV item dchKey with
    | none => rfl
    | some v =>
      dsimp only
      by_cases htr : v.truthy = true
      · rw [if_pos htr]
        have hY := pyStr_noCC v (normRec_getV item dchKey v hr hgv)
        have h1 : ccSafe f (chars "discharge: " ++ pyStr v) =
            ccSafe false (chars "ischarge: " ++ pyStr v) := by
          show ccSafe f ('d' :: (chars "ischarge: " ++ pyStr v)) = _
          unfold ccSafe
          rw [if_neg (by simp)]
          rfl
        rw [h1, ccSafe_append, ccSafe_noCC _ hY]
        decide
      · rw [if_neg htr]; rfl
  unfold rateText
  match hgc : getV item chKey with
  | none =>
    dsimp only
    rw [List.nil_append]
    exact hD false
  | some v =>
    dsimp only
    by_cases htr : v.truthy = true
    · rw [if_pos htr]
      have hX := pyStr_noCC v (normRec_getV item chKey v hr hgc)
      simp only [ccSafe_append, ccSafe_noCC _ hX, ccSafe_single_ws, hD,
        Bool.and_true]
      decide
    · rw [if_neg htr, List.nil_append]
      exact hD false

/-- A scan-safe rate text leaves the asymmetric-format fix inert. -/
theorem asymFix_id (item : Rec) (rt : Str) (hsafe : ccSafe false rt = true) :
    asymFix rt item = item := by
  unfold asymFix
  rw [searchPat_asym_none rt hsafe]

theorem strRateFix_id (key : Str) (item : Rec) (hr : normRec item = true) :
    strRateFix key item = item := by
  match hgv : getV item key with
  | none => simp [strRateFix, hgv]
  | some (.num q) => simp [strRateFix, hgv]
  | some (.str s2) =>
    have hnv := normRec_getV item key _ hr hgv
    simp only [normValB, decide_eq_true_eq] at hnv
    subst hnv
    simp [strRateFix, hgv]
  | some .jnull => exact Bool.noConfusion (normRec_getV item key _ hr hgv)
  | some (.jbool b) => exact Bool.noConfusion (normRec_getV item key _ hr hgv)

/-- On an empty full text a normalized record passes the rate step
unchanged. -/
theorem rateStep_id (t : Str) (item : Rec) (ht : t.isEmpty = true)
    (hr : normRec item = true) : rateStep t item = .ok item := by
  have hsafe := rateText_ccSafe item hr
  unfold rateStep
  dsimp only
  rw [ht]
  rw [asymFix_id item (rateText item) hsafe, strRateFix_id chKey item hr,
    strRateFix_id dchKey item hr]
  simp

theorem tempStep_id (t : Str) (item : Rec) (hr : normRec item = true) :
    tempStep t item = item := by
  match hgv : getV item tempKey with
  | none => simp [tempStep, hgv]
  | some (.num q) => simp [tempStep, hgv]
  | some (.str s2) =>
    have hnv := normRec_getV item tempKey _ hr hgv
    simp only [normValB, decide_eq_true_eq] at hnv
    subst hnv
    simp [tempStep, hgv]
  | some .jnull => exact Bool.noConfusion (normRec_getV item tempKey _ hr hgv)
  | some (.jbool b) => exact Bool.noConfusion (normRec_getV item tempKey _ hr hgv)

theorem capStep_id (t : Str) (item : Rec) (hr : normRec item = true) :
    capStep t item = item := by
  match hgv : getV item capKey with
  | none => simp [capStep, hgv]
  | some (.num q) => simp [capStep, hgv]
  | some (.str s2) =>
    have hnv := normRec_getV item capKey _ hr hgv
    simp only [normValB, decide_eq_true_eq] at hnv
    subst hnv
    simp [capStep, hgv]
  | some .jnull => exact Bool.noConfusion (normRec_getV item capKey _ hr hgv)
  | some (.jbool b) => exact Bool.noConfusion (normRec_getV item capKey _ hr hgv)

theorem retStep_id (t : Str) (item : Rec) (hr : normRec item = true) :
    retStep t item = item := by
  match hgv : getV item retKey with
  | none => simp [retStep, hgv]
  | some (.num q) => simp [retStep, hgv]
  | some (.str s2) =>
    have hnv := normRec_getV item retKey _ hr hgv
    simp only [normValB, decide_eq_true_eq] at hnv
    subst hnv
    simp [retStep, hgv]
  | some .jnull => exact Bool.noConfusion (normRec_getV item retKey _ hr hgv)
  | some (.jbool b) => exact Bool.noConfusion (normRec_getV item retKey _ hr hgv)

theorem cycStep_id (t : Str) (item : Rec) (hr : normRec item = true) :
    cycStep t item = item := by
  match hgv : getV item cycKey with
  | none => simp [cycStep, hgv]
  | some (.num q) => simp [cycStep, hgv]
  | some (.str s2) =>
    have hnv := normRec_getV item cycKey _ hr hgv
    simp only [normValB, decide_eq_true_eq] at hnv
    subst hnv
    simp [cycStep, hgv]
  | some .jnull => exact Bool.noConfusion (normRec_getV item cycKey _ hr hgv)
  | some (.jbool b) => exact Bool.noConfusion (normRec_getV item cycKey _ hr hgv)

/-- On an empty full text the material∕binder steps are inert. -/
theorem materialStep_id (key : Str) (ident : Str → Option Str) (t : Str)
    (item : Rec) (ht : t.isEmpty = true) :
    materialStep key ident t item = item := by
  match hgv : getV item key with
  | none => simp [materialStep, hgv]
  | some v => simp [materialStep, hgv, ht]

/-- `mapM` in `Except` on a pointwise-fixed function is the identity. -/
theorem mapM_except_id {α : Type} (f : α → Except Unit α) :
    ∀ (xs : List α), (∀ x ∈ xs, f x = .ok x) → xs.mapM f = .ok xs := by
  intro xs
  induction xs with
  | nil => intro _; rfl
  | cons a t ih =>
    intro h
    rw [List.mapM_cons, h a (List.mem_cons_self _ _),
      ih fun x hx => h x (List.mem_cons_of_mem _ hx)]
    rfl

/-- A normalized record without `raw_text` is a fixed point of one
standardization pass when the full text is empty. -/
theorem stdItem_id (t : Str) (r : Rec) (ht : t.isEmpty = true)
    (hr : normRec r = true) (hraw : getV r rawKey = none) :
    stdItem t r = .ok r := by
  unfold stdItem
  dsimp only
  rw [if_neg (show ¬ ¬ t.isEmpty = true by simp [ht])]
  rw [tempStep_id t r hr, voltStep_id t r ht hr, rateStep_id t r ht hr]
  dsimp only [Except.map]
  rw [capStep_id t r hr, retStep_id t r hr, cycStep_id t r hr,
    materialStep_id _ _ t r ht, materialStep_id _ _ t r ht,
    materialStep_id _ _ t r ht, delV_of_absent r _ hraw]

/-- C5 counterexample: standardization is NOT idempotent in general — the
first pass turns the lower bound into the number 2 while the upper field
stays the string "to 4 V"; the re-stringified buffer of the second pass then
parses as the range `2.0 to 4 V` and the upper field changes to 4. -/
theorem c5_counterexample_not_idempotent :
    standardize_json_data
        [[(lowKey, JVal.str (chars "lower limit 2 V")),
          (upKey, JVal.str (chars "to 4 V"))]] (chars "") =
      .ok [[(lowKey, JVal.num 2), (upKey, JVal.str (chars "to 4 V"))]] ∧
    standardize_json_data
        [[(lowKey, JVal.num 2), (upKey, JVal.str (chars "to 4 V"))]] (chars "") =
      .ok [[(lowKey, JVal.num 2), (upKey, JVal.num 4)]] ∧
    ([[(lowKey, JVal.num 2), (upKey, JVal.str (chars "to 4 V"))]] : List Rec) ≠
      [[(lowKey, JVal.num 2), (upKey, JVal.num 4)]] := by
  refine ⟨?_, ?_, ?_⟩
  · with_unfolding_all rfl
  · with_unfolding_all rfl
  · decide

/-- C5 (amended): records whose every value is already a number or the
sentinel, with no `raw_text` key, are fixed points of standardization when
the full text is empty — running the pass again returns them verbatim, so on
this class a second run is the identity.  In general idempotence FAILS (see
the counterexample): a partially-parsed string field changes the rebuilt
voltage∕rate buffers of the second run, and re-extraction then rewrites
fields the first run left alone. -/
theorem c5_normalized_fixed_point (js : List Rec) (t : Str)
    (ht : t.isEmpty = true)
    (hjs : ∀ r ∈ js, normRec r = true ∧ getV r rawKey = none) :
    standardize_json_data js t = .ok js ∧
    (standardize_json_data js t).bind
        (fun out => standardize_json_data out t) =
      standardize_json_data js t := by
  have h1 : standardize_json_data js t = .ok js := by
    unfold standardize_json_data
    exact mapM_except_id _ js fun r hrm =>
      stdItem_id t r ht (hjs r hrm).1 (hjs r hrm).2
  refine ⟨h1, ?_⟩
  rw [h1]
  exact h1

/-- Witness for `c5_normalized_fixed_point` at a one-record list with a
numeric temperature and a sentinel charge rate. -/
theorem c5_witness :
    standardize_json_data [[(tempKey, JVal.num 25), (chKey, JVal.str naStr)]]
        (chars "") =
      .ok [[(tempKey, JVal.num 25), (chKey, JVal.str naStr)]] ∧
    (standardize_json_data [[(tempKey, JVal.num 25), (chKey, JVal.str naStr)]]
        (chars "")).bind
        (fun out => standardize_json_data out (chars "")) =
      standardize_json_data [[(tempKey, JVal.num 25), (chKey, JVal.str naStr)]]
        (chars "") :=
  c5_normalized_fixed_point _ (chars "") (by decide) (by decide)

end DualModel
